import Mathlib

/-!
The SDL2 backend of chip8-emu (`src/sdl2/SDL2Backend.cpp`).

A shallow embedding of `fill_image_buffer` and `execute_main_loop`.

* `unsigned int` / `u32` values are natural numbers reduced `% 2 ^ 32` after every
  arithmetic operation, `u8` values are reduced `% 256`.
* Memory reached through the `u8* imageOutput` pointer is a total map from byte offsets
  to bytes; the function is embedded as the sequence of accesses it performs (calls of
  `read_screen_pixel`, stores through `imageOutput`) and the image after the call is the
  result of performing the stores in order.
* `chip8::ScreenWidth`, `chip8::ScreenHeight`, `read_screen_pixel`, `set_key_pressed` and
  `execute_step` are declared in headers outside this file; they are parameters. The two
  screen dimensions are taken as `u32` constants, like `pixelFormatBGRASizeInBytes`; the
  CHIP-8 screen is 64 by 32.
* Each run is driven by a `Platform`: what SDL returns to the program (whether a resource
  was created, the tick counter, the pending events and the keyboard state of each
  iteration). The run is the list of calls the program makes.
-/

namespace Chip8

/-! ## Machine integers -/

/-- Number of values of an `unsigned int` / `u32`. -/
def U32 : Nat := 2 ^ 32

/-- Unsigned 32-bit multiplication. -/
def mul32 (a b : Nat) : Nat := (a * b) % U32

/-- Unsigned 32-bit addition. -/
def add32 (a b : Nat) : Nat := (a + b) % U32

/-- Unsigned 32-bit subtraction (wraps below zero). -/
def sub32 (a b : Nat) : Nat := (a % U32 + (U32 - b % U32)) % U32

/-! ## Palette and colour bytes -/

/-- Modelled from the spec: the channel type of `chip8::Color`, which is declared in
`chip8/Config.h`, not part of the sources; the spec gives "three floating-point channel
intensities" and the code multiplies by the single-precision literal `255.f`. A channel is
a finite binary floating-point value `(-1)^sign * m * 2^e`. -/
structure F32 where
  sign : Bool
  m : Nat
  e : Int
deriving DecidableEq

/-- Significand width of single precision. -/
def significandBits : Nat := 24

/-- Number of binary digits of `n` (`fuel` bounds the recursion; `fuel = n` is enough). -/
def bitLengthAux : Nat → Nat → Nat
  | 0, _ => 0
  | fuel + 1, n => if n = 0 then 0 else 1 + bitLengthAux fuel (n / 2)

/-- Number of binary digits of `n`. -/
def bitLength (n : Nat) : Nat := bitLengthAux n n

/-- Round the exact value `m * 2^e` to `significandBits` significant bits, to nearest,
ties to even (the default IEEE-754 rounding of a floating-point multiplication). The
exponent range is not bounded. -/
def roundSignificand (m : Nat) (e : Int) : Nat × Int :=
  if bitLength m ≤ significandBits then (m, e)
  else
    let k := bitLength m - significandBits
    let q := m / 2 ^ k
    let r := m % 2 ^ k
    let half := 2 ^ (k - 1)
    let q1 := if half < r ∨ (r = half ∧ q % 2 = 1) then q + 1 else q
    (q1, e + k)

/-- The single-precision product `c * 255.f`. -/
def mul255 (c : F32) : F32 :=
  let p := roundSignificand (c.m * 255) c.e
  { sign := c.sign, m := p.1, e := p.2 }

/-- Integer part of the magnitude `m * 2^e` (conversion to an integer type truncates
toward zero). -/
def truncMagnitude (m : Nat) (e : Int) : Nat :=
  if 0 ≤ e then m * 2 ^ e.toNat else m / 2 ^ (-e).toNat

/-- The conversion `static_cast<u8>(x)` of a floating-point value: the fractional part is
discarded; the result is reduced to 8 bits (for a truncated value outside `0..255` the
language leaves the result open, the reduction is what the spec names). -/
def static_cast_u8 (x : F32) : Nat :=
  let t : Int := if x.sign then -(truncMagnitude x.m x.e : Int) else (truncMagnitude x.m x.e : Int)
  (t % 256).toNat

/-- The expression `static_cast<u8>(channel * 255.f)` of lines 30-32 and 36-38. -/
def channel_byte (c : F32) : Nat := static_cast_u8 (mul255 c)

/-- The rational number a floating-point value stands for. -/
def F32.toRat (x : F32) : ℚ := (if x.sign then -1 else 1) * (x.m : ℚ) * 2 ^ x.e

/-- Modelled from the spec: `chip8::Color` (`chip8/Config.h`, not part of the sources),
a normalized RGB triple. -/
structure Color where
  r : F32
  g : F32
  b : F32

/-- Modelled from the spec: `chip8::Palette` (`chip8/Config.h`, not part of the sources). -/
structure Palette where
  primary : Color
  secondary : Color

/-- The array `primaryColorBGRA` of lines 29-34. -/
def primaryColorBGRA (palette : Palette) : List Nat :=
  [channel_byte palette.primary.b, channel_byte palette.primary.g,
   channel_byte palette.primary.r, 255]

/-- The array `secondaryColorBGRA` of lines 35-40. -/
def secondaryColorBGRA (palette : Palette) : List Nat :=
  [channel_byte palette.secondary.b, channel_byte palette.secondary.g,
   channel_byte palette.secondary.r, 255]

/-! ## `fill_image_buffer` -/

/-- Memory reached through `imageOutput`: byte offset to byte. -/
abbrev Image := Nat → Nat

/-- One access performed by `fill_image_buffer`. -/
inductive Access where
  | read (x y : Nat)
  | write (offset value : Nat)
deriving DecidableEq

/-- The store `imageOutput[offset] = value`. -/
def store (image : Image) (offset value : Nat) : Image :=
  fun k => if k = offset then value else image k

/-- Effect of one access on the image. -/
def perform (image : Image) : Access → Image
  | Access.read _ _ => image
  | Access.write offset value => store image offset value

/-- Byte offsets stored to, in order. -/
def writtenOffsets : List Access → List Nat
  | [] => []
  | Access.read _ _ :: rest => writtenOffsets rest
  | Access.write offset _ :: rest => offset :: writtenOffsets rest

/-- Arguments of the calls of `read_screen_pixel`, in order. -/
def readCoordinates : List Access → List (Nat × Nat)
  | [] => []
  | Access.read x y :: rest => (x, y) :: readCoordinates rest
  | Access.write _ _ :: rest => readCoordinates rest

section FillImageBuffer

variable {CPUState : Type}
variable (ScreenWidth ScreenHeight : Nat)
variable (read_screen_pixel : CPUState → Nat → Nat → Nat)

/-- The constant `pixelFormatBGRASizeInBytes` (lines 27 and 73). -/
def pixelFormatBGRASizeInBytes : Nat := 4

/-- Body of the inner loop (lines 46-63) for the loop counters `i` and `j`. -/
def pixel_accesses (state : CPUState) (palette : Palette) (scale i j : Nat) : List Access :=
  let pixelIndexFlatDst := add32 (mul32 (mul32 j ScreenWidth) scale) i
  let pixelOutputOffsetInBytes := mul32 pixelIndexFlatDst pixelFormatBGRASizeInBytes
  let pixelValue := read_screen_pixel state (i / scale) (j / scale) % 256
  Access.read (i / scale) (j / scale) ::
    (if pixelValue ≠ 0 then
      [Access.write (add32 pixelOutputOffsetInBytes 0) ((primaryColorBGRA palette).getD 0 0),
       Access.write (add32 pixelOutputOffsetInBytes 1) ((primaryColorBGRA palette).getD 1 0),
       Access.write (add32 pixelOutputOffsetInBytes 2) ((primaryColorBGRA palette).getD 2 0),
       Access.write (add32 pixelOutputOffsetInBytes 3) ((primaryColorBGRA palette).getD 3 0)]
    else
      [Access.write (add32 pixelOutputOffsetInBytes 0) ((secondaryColorBGRA palette).getD 0 0),
       Access.write (add32 pixelOutputOffsetInBytes 1) ((secondaryColorBGRA palette).getD 1 0),
       Access.write (add32 pixelOutputOffsetInBytes 2) ((secondaryColorBGRA palette).getD 2 0),
       Access.write (add32 pixelOutputOffsetInBytes 3) ((secondaryColorBGRA palette).getD 3 0)])

/-- The inner loop `for (i = 0; i < ScreenWidth * scale; i++)` (line 44). -/
def row_accesses (state : CPUState) (palette : Palette) (scale j : Nat) : List Access :=
  (List.range (mul32 ScreenWidth scale)).flatMap
    (fun i => pixel_accesses ScreenWidth read_screen_pixel state palette scale i j)

/-- The outer loop `for (j = 0; j < ScreenHeight * scale; j++)` (line 42): every access of
one call of `fill_image_buffer`, in program order. -/
def fill_image_buffer_accesses (state : CPUState) (palette : Palette) (scale : Nat) :
    List Access :=
  (List.range (mul32 ScreenHeight scale)).flatMap
    (fun j => row_accesses ScreenWidth read_screen_pixel state palette scale j)

/-- The call `fill_image_buffer(imageOutput, state, palette, scale)`: the image after it. -/
def fill_image_buffer (imageOutput : Image) (state : CPUState) (palette : Palette)
    (scale : Nat) : Image :=
  (fill_image_buffer_accesses ScreenWidth ScreenHeight read_screen_pixel state palette
    scale).foldl perform imageOutput

/-- The image-buffer length computed by `execute_main_loop` (lines 74-78). -/
def image_size (scale : Nat) : Nat :=
  let width := mul32 ScreenWidth scale
  let stride := mul32 width pixelFormatBGRASizeInBytes
  mul32 (mul32 stride ScreenHeight) scale

end FillImageBuffer

/-! ## The surface of `execute_main_loop` (lines 90-108) -/

/-- The channel masks handed to `SDL_CreateRGBSurfaceFrom` (lines 90-101); `bigEndian`
stands for `SDL_BYTEORDER == SDL_BIG_ENDIAN`. -/
structure Masks where
  rmask : Nat
  gmask : Nat
  bmask : Nat
  amask : Nat
deriving DecidableEq

/-- Lines 90-101. -/
def surface_masks (bigEndian : Bool) : Masks :=
  if bigEndian then
    { rmask := 0xff000000, gmask := 0x00ff0000, bmask := 0x0000ff00, amask := 0x000000ff }
  else
    { rmask := 0x000000ff, gmask := 0x0000ff00, bmask := 0x00ff0000, amask := 0xff000000 }

/-- The 32-bit pixel value of the four bytes at `offset`: SDL reads a pixel of a 32-bit
surface as one 32-bit value in the byte order of the platform. -/
def load32 (bigEndian : Bool) (image : Image) (offset : Nat) : Nat :=
  if bigEndian then
    image offset * 2 ^ 24 + image (offset + 1) * 2 ^ 16 + image (offset + 2) * 2 ^ 8
      + image (offset + 3)
  else
    image offset + image (offset + 1) * 2 ^ 8 + image (offset + 2) * 2 ^ 16
      + image (offset + 3) * 2 ^ 24

/-- Position of the lowest set bit of a mask (`fuel` bounds the search). -/
def maskShiftAux : Nat → Nat → Nat
  | 0, _ => 0
  | fuel + 1, mask => if mask % 2 = 1 then 0 else 1 + maskShiftAux fuel (mask / 2)

/-- Position of the lowest set bit of a 32-bit mask. -/
def maskShift (mask : Nat) : Nat := maskShiftAux 32 mask

/-- The channel SDL reads from a pixel value through a mask of a surface with 8-bit
channels: `(pixel & mask) >> shift`, with `shift` the position of the lowest set bit of the
mask. -/
def extract_channel (mask pixel : Nat) : Nat := (pixel &&& mask) >>> maskShift mask

/-- The pixel value the surface holds for output pixel `(i, j)`: `depth` is 32 and `pitch`
is `width * 4` (lines 103-107). -/
def surface_pixel (bigEndian : Bool) (image : Image) (width i j : Nat) : Nat :=
  load32 bigEndian image ((j * width + i) * 4)

/-! ## SDL constants -/

/-- The constant `SDL_QUIT` of `SDL_events.h`. -/
def SDL_QUIT : Nat := 0x100
/-- The constant `SDL_KEYDOWN` of `SDL_events.h`. -/
def SDL_KEYDOWN : Nat := 0x300
/-- The constant `SDLK_ESCAPE` of `SDL_keycode.h`. -/
def SDLK_ESCAPE : Nat := 27

/-- The constant `SDL_SCANCODE_A` of `SDL_scancode.h`. -/
def SDL_SCANCODE_A : Nat := 4
/-- The constant `SDL_SCANCODE_C` of `SDL_scancode.h`. -/
def SDL_SCANCODE_C : Nat := 6
/-- The constant `SDL_SCANCODE_D` of `SDL_scancode.h`. -/
def SDL_SCANCODE_D : Nat := 7
/-- The constant `SDL_SCANCODE_E` of `SDL_scancode.h`. -/
def SDL_SCANCODE_E : Nat := 8
/-- The constant `SDL_SCANCODE_F` of `SDL_scancode.h`. -/
def SDL_SCANCODE_F : Nat := 9
/-- The constant `SDL_SCANCODE_Q` of `SDL_scancode.h`. -/
def SDL_SCANCODE_Q : Nat := 20
/-- The constant `SDL_SCANCODE_R` of `SDL_scancode.h`. -/
def SDL_SCANCODE_R : Nat := 21
/-- The constant `SDL_SCANCODE_S` of `SDL_scancode.h`. -/
def SDL_SCANCODE_S : Nat := 22
/-- The constant `SDL_SCANCODE_V` of `SDL_scancode.h`. -/
def SDL_SCANCODE_V : Nat := 25
/-- The constant `SDL_SCANCODE_W` of `SDL_scancode.h`. -/
def SDL_SCANCODE_W : Nat := 26
/-- The constant `SDL_SCANCODE_X` of `SDL_scancode.h`. -/
def SDL_SCANCODE_X : Nat := 27
/-- The constant `SDL_SCANCODE_Z` of `SDL_scancode.h`. -/
def SDL_SCANCODE_Z : Nat := 29
/-- The constant `SDL_SCANCODE_1` of `SDL_scancode.h`. -/
def SDL_SCANCODE_1 : Nat := 30
/-- The constant `SDL_SCANCODE_2` of `SDL_scancode.h`. -/
def SDL_SCANCODE_2 : Nat := 31
/-- The constant `SDL_SCANCODE_3` of `SDL_scancode.h`. -/
def SDL_SCANCODE_3 : Nat := 32
/-- The constant `SDL_SCANCODE_4` of `SDL_scancode.h`. -/
def SDL_SCANCODE_4 : Nat := 33

/-- The exit code `EXIT_SUCCESS`. -/
def EXIT_SUCCESS : Nat := 0

/-! ## Events, keys and the main loop -/

/-- The fields of an `SDL_Event` the loop reads: `type` and `key.keysym.sym`. -/
structure SDL_Event where
  type : Nat
  sym : Nat
deriving DecidableEq

/-- One call made by `execute_main_loop`, in the order of the source text. -/
inductive Call where
  | SDL_Init
  | SDL_CreateWindow (w h : Nat)
  | SDL_CreateRenderer
  | SDL_CreateRGBSurfaceFrom (width height depth pitch : Nat) (masks : Masks)
  | SDL_GetTicks (value : Nat)
  | SDL_PollEvent (polled : Option SDL_Event)
  | SDL_GetKeyboardState
  | set_key_pressed (key : Nat) (pressed : Bool)
  | execute_step (deltaTimeMs : Nat)
  | fill_image_buffer
  | SDL_CreateTextureFromSurface
  | SDL_RenderClear
  | SDL_RenderCopy
  | SDL_RenderPresent
  | SDL_DestroyTexture
  | SDL_FreeSurface
  | SDL_DestroyRenderer
  | SDL_DestroyWindow
  | SDL_Quit
deriving DecidableEq

/-- The body of the `switch` (lines 119-128): the quit flag after one event. -/
def handle_event (shouldExit : Bool) (sdlEvent : SDL_Event) : Bool :=
  if sdlEvent.type = SDL_QUIT then true
  else if sdlEvent.type = SDL_KEYDOWN then
    (if sdlEvent.sym = SDLK_ESCAPE then true else shouldExit)
  else shouldExit

/-- State of the event-poll loop: the queue of pending events, the quit flag and the calls
of `SDL_PollEvent` made so far. -/
structure PollState where
  pending : List SDL_Event
  shouldExit : Bool
  calls : List Call
deriving DecidableEq

/-- The loop `while (SDL_PollEvent(&sdlEvent))` (lines 117-129). `SDL_PollEvent` removes the
next pending event and returns 1, or returns 0 when the queue is empty. -/
def poll_events : List SDL_Event → Bool → List Call → PollState
  | [], shouldExit, calls =>
    { pending := [], shouldExit := shouldExit, calls := calls ++ [Call.SDL_PollEvent none] }
  | sdlEvent :: pending, shouldExit, calls =>
    poll_events pending (handle_event shouldExit sdlEvent)
      (calls ++ [Call.SDL_PollEvent (some sdlEvent)])

/-- The sixteen calls of `set_key_pressed` (lines 133-148) as (scancode, key id) pairs, in
source order. -/
def key_mapping : List (Nat × Nat) :=
  [(SDL_SCANCODE_1, 0x1), (SDL_SCANCODE_2, 0x2), (SDL_SCANCODE_3, 0x3), (SDL_SCANCODE_4, 0xC),
   (SDL_SCANCODE_Q, 0x4), (SDL_SCANCODE_W, 0x5), (SDL_SCANCODE_E, 0x6), (SDL_SCANCODE_R, 0xD),
   (SDL_SCANCODE_A, 0x7), (SDL_SCANCODE_S, 0x8), (SDL_SCANCODE_D, 0x9), (SDL_SCANCODE_F, 0xE),
   (SDL_SCANCODE_Z, 0xA), (SDL_SCANCODE_X, 0x0), (SDL_SCANCODE_C, 0xB), (SDL_SCANCODE_V, 0xF)]

/-- One update `set_key_pressed(state, key, sdlKeyStates[scancode])`; the `unsigned char`
key state converts to the `pressed` flag as "non-zero". -/
def apply_key_update {CPUState : Type} (set_key_pressed : CPUState → Nat → Bool → CPUState)
    (sdlKeyStates : Nat → Nat) (state : CPUState) (entry : Nat × Nat) : CPUState :=
  set_key_pressed state entry.2 (decide (sdlKeyStates entry.1 ≠ 0))

/-- Lines 132-148: the key updates of one frame, performed in the order of `updates`
(`key_mapping` in the program). -/
def update_keys {CPUState : Type} (set_key_pressed : CPUState → Nat → Bool → CPUState)
    (updates : List (Nat × Nat)) (sdlKeyStates : Nat → Nat) (state : CPUState) : CPUState :=
  updates.foldl (apply_key_update set_key_pressed sdlKeyStates) state

/-- The calls of lines 132-148. -/
def key_calls (sdlKeyStates : Nat → Nat) : List Call :=
  Call.SDL_GetKeyboardState ::
    key_mapping.map (fun entry =>
      Call.set_key_pressed entry.2 (decide (sdlKeyStates entry.1 ≠ 0)))

/-- Modelled from the spec: `chip8::set_key_pressed` is declared in `chip8/Keyboard.h`,
which is not part of the sources. The logical keypad is sixteen independent pressed flags
addressed `0x0..0xF`; setting a key is a point update. -/
abbrev Keypad := Nat → Bool

/-- Modelled from the spec: `set_key_pressed` on the keypad alone (see `Keypad`). -/
def keypad_set (keypad : Keypad) (key : Nat) (pressed : Bool) : Keypad :=
  fun k => if k = key then pressed else keypad k

/-- Modelled from the spec: `chip8::EmuConfig` (`chip8/Config.h`, not part of the
sources); the fields the backend reads. -/
structure EmuConfig where
  screenScale : Nat
  palette : Palette

/-- What the platform supplies during one iteration of the main loop. -/
structure Frame where
  /-- The queue of pending events when the iteration starts. -/
  events : List SDL_Event
  /-- The array returned by `SDL_GetKeyboardState`. -/
  sdlKeyStates : Nat → Nat
  /-- The value returned by `SDL_GetTicks` (line 150), a `Uint32`. -/
  ticks : Nat
  /-- Whether `SDL_CreateTextureFromSurface` returns a texture. -/
  textureCreated : Bool

/-- What the platform supplies during one run. -/
structure Platform where
  bigEndian : Bool
  sdlInitialized : Bool
  windowCreated : Bool
  rendererCreated : Bool
  surfaceCreated : Bool
  /-- The value returned by `SDL_GetTicks` at line 110, a `Uint32`. -/
  startTicks : Nat
  frames : List Frame

/-- The local variables of `execute_main_loop` at the top of the `while` loop, with the
calls made so far. -/
structure LoopState (CPUState : Type) where
  state : CPUState
  image : Image
  previousTimeMs : Nat
  shouldExit : Bool
  calls : List Call

/-- How a run ends. `pending` marks a run whose loop is still running when the supplied
frames are used up. -/
inductive Outcome where
  | returned (code : Nat)
  | aborted
  | pending
deriving DecidableEq

/-- A run of `execute_main_loop`: the calls made, the final state and image, the outcome. -/
structure Run (CPUState : Type) where
  calls : List Call
  state : CPUState
  image : Image
  outcome : Outcome

section MainLoop

variable {CPUState : Type}
variable (ScreenWidth ScreenHeight : Nat)
variable (read_screen_pixel : CPUState → Nat → Nat → Nat)
variable (set_key_pressed : CPUState → Nat → Bool → CPUState)
variable (execute_step : EmuConfig → CPUState → Nat → CPUState)

/-- Lines 172-177: the loop has been left; release everything and return. -/
def shut_down (ls : LoopState CPUState) : Run CPUState :=
  { calls := ls.calls ++ [Call.SDL_FreeSurface, Call.SDL_DestroyRenderer,
      Call.SDL_DestroyWindow, Call.SDL_Quit],
    state := ls.state, image := ls.image, outcome := Outcome.returned EXIT_SUCCESS }

/-- Lines 115-158 of the loop body: drain the events, sample the keys, read the clock, run
`execute_step` and `fill_image_buffer`, ask for the texture. -/
def run_frame (config : EmuConfig) (frame : Frame) (ls : LoopState CPUState) :
    LoopState CPUState :=
  let polled := poll_events frame.events ls.shouldExit ls.calls
  let state1 := update_keys set_key_pressed key_mapping frame.sdlKeyStates ls.state
  let currentTimeMs := frame.ticks
  let deltaTimeMs := sub32 currentTimeMs ls.previousTimeMs
  let state2 := execute_step config state1 deltaTimeMs
  let image := fill_image_buffer ScreenWidth ScreenHeight read_screen_pixel ls.image state2
    config.palette config.screenScale
  { state := state2, image := image, previousTimeMs := ls.previousTimeMs,
    shouldExit := polled.shouldExit,
    calls := polled.calls ++ key_calls frame.sdlKeyStates ++
      [Call.SDL_GetTicks currentTimeMs, Call.execute_step deltaTimeMs,
       Call.fill_image_buffer, Call.SDL_CreateTextureFromSurface] }

/-- Lines 161-169 of the loop body: clear, copy, present, destroy the texture, and
`previousTimeMs = currentTimeMs`. -/
def present_frame (frame : Frame) (ls : LoopState CPUState) : LoopState CPUState :=
  { state := ls.state, image := ls.image, previousTimeMs := frame.ticks,
    shouldExit := ls.shouldExit,
    calls := ls.calls ++ [Call.SDL_RenderClear, Call.SDL_RenderCopy,
      Call.SDL_RenderPresent, Call.SDL_DestroyTexture] }

/-- Lines 113-177: the `while (!shouldExit)` loop followed by the release of the resources.
Each iteration consumes one `Frame`. The `Assert` of line 159 aborts the run when the
texture was not created (modelled from the spec: `core/Assert.h` is not part of the
sources, the spec makes a failed creation fatal). -/
def main_loop (config : EmuConfig) : List Frame → LoopState CPUState → Run CPUState
  | [], ls =>
    if ls.shouldExit then shut_down ls
    else { calls := ls.calls, state := ls.state, image := ls.image,
           outcome := Outcome.pending }
  | frame :: frames, ls =>
    if ls.shouldExit then shut_down ls
    else
      let ls1 := run_frame ScreenWidth ScreenHeight read_screen_pixel set_key_pressed
        execute_step config frame ls
      if frame.textureCreated then main_loop config frames (present_frame frame ls1)
      else { calls := ls1.calls, state := ls1.state, image := ls1.image,
             outcome := Outcome.aborted }

/-- The function `execute_main_loop(state, config)` (lines 71-178). Modelled from the spec:
`Assert` (`core/Assert.h`, not part of the sources) aborts the process when its condition is
false. -/
def execute_main_loop (platform : Platform) (state : CPUState) (config : EmuConfig) :
    Run CPUState :=
  let scale := config.screenScale
  let width := mul32 ScreenWidth scale
  let height := mul32 ScreenHeight scale
  let stride := mul32 width pixelFormatBGRASizeInBytes
  let image : Image := fun _ => 0
  let calls1 := [Call.SDL_Init]
  if ¬ platform.sdlInitialized then
    { calls := calls1, state := state, image := image, outcome := Outcome.aborted }
  else
    let calls2 := calls1 ++ [Call.SDL_CreateWindow width height]
    if ¬ platform.windowCreated then
      { calls := calls2, state := state, image := image, outcome := Outcome.aborted }
    else
      let calls3 := calls2 ++ [Call.SDL_CreateRenderer]
      if ¬ platform.rendererCreated then
        { calls := calls3, state := state, image := image, outcome := Outcome.aborted }
      else
        let depth := 32
        let pitch := stride
        let calls4 := calls3 ++ [Call.SDL_CreateRGBSurfaceFrom width height depth pitch
          (surface_masks platform.bigEndian)]
        if ¬ platform.surfaceCreated then
          { calls := calls4, state := state, image := image, outcome := Outcome.aborted }
        else
          let previousTimeMs := platform.startTicks
          main_loop ScreenWidth ScreenHeight read_screen_pixel set_key_pressed execute_step
            config platform.frames
            { state := state, image := image, previousTimeMs := previousTimeMs,
              shouldExit := false, calls := calls4 ++ [Call.SDL_GetTicks previousTimeMs] }

/-- The machine state after the given frames when every frame samples the keys and then
calls `execute_step` with the time elapsed since the previous timestamp (spec 4.4 and 4.6:
"compute `delta = current - previous`, pass `delta` to the execution step, then set
`previous = current`"). The reference the runs of `main_loop` are compared with. -/
def stepped_state (config : EmuConfig) : Nat → List Frame → CPUState → CPUState
  | _, [], state => state
  | previous, frame :: frames, state =>
    stepped_state config frame.ticks frames
      (execute_step config
        (update_keys set_key_pressed key_mapping frame.sdlKeyStates state)
        (sub32 frame.ticks previous))

end MainLoop

/-- The elapsed times passed to `execute_step`, in call order. -/
def step_deltas (calls : List Call) : List Nat :=
  calls.filterMap (fun c => match c with
    | Call.execute_step deltaTimeMs => some deltaTimeMs
    | _ => none)

/-- The values read by `SDL_GetTicks`, in call order. -/
def tick_reads (calls : List Call) : List Nat :=
  calls.filterMap (fun c => match c with
    | Call.SDL_GetTicks value => some value
    | _ => none)

/-- The events returned by `SDL_PollEvent`, in call order. -/
def polled_events (calls : List Call) : List SDL_Event :=
  calls.filterMap (fun c => match c with
    | Call.SDL_PollEvent (some sdlEvent) => some sdlEvent
    | _ => none)

/-- Differences of consecutive timestamps, as unsigned 32-bit subtractions. -/
def consecutive_deltas : List Nat → List Nat
  | previous :: current :: rest =>
    sub32 current previous :: consecutive_deltas (current :: rest)
  | _ => []

/-- Whether an event is a quit trigger: window close, or key-down of the escape key. -/
def is_quit_trigger (sdlEvent : SDL_Event) : Bool :=
  decide (sdlEvent.type = SDL_QUIT) ||
    (decide (sdlEvent.type = SDL_KEYDOWN) && decide (sdlEvent.sym = SDLK_ESCAPE))

/-- The colour array selected for the logical pixel `(x, y)` (the test of line 50). -/
def pixel_color {CPUState : Type} (read_screen_pixel : CPUState → Nat → Nat → Nat)
    (state : CPUState) (palette : Palette) (x y : Nat) : List Nat :=
  if read_screen_pixel state x y % 256 ≠ 0 then primaryColorBGRA palette
  else secondaryColorBGRA palette

/-! ## Concrete inputs -/

/-- White primary, black secondary. -/
def whiteOnBlack : Palette :=
  { primary := { r := ⟨false, 1, 0⟩, g := ⟨false, 1, 0⟩, b := ⟨false, 1, 0⟩ },
    secondary := { r := ⟨false, 0, 0⟩, g := ⟨false, 0, 0⟩, b := ⟨false, 0, 0⟩ } }

/-- Pure red primary, black secondary. -/
def redOnBlack : Palette :=
  { primary := { r := ⟨false, 1, 0⟩, g := ⟨false, 0, 0⟩, b := ⟨false, 0, 0⟩ },
    secondary := { r := ⟨false, 0, 0⟩, g := ⟨false, 0, 0⟩, b := ⟨false, 0, 0⟩ } }

/-- A framebuffer accessor for a screen whose only lit pixel is `(0, 0)`. -/
def onlyOriginLit : Unit → Nat → Nat → Nat :=
  fun _ x y => if x = 0 ∧ y = 0 then 1 else 0

/-- A key-down event of the escape key. -/
def escapeKeyDown : SDL_Event := { type := SDL_KEYDOWN, sym := SDLK_ESCAPE }

/-- A frame whose event queue holds a key-down of `a` followed by a key-down of escape. -/
def escapeFrame : Frame :=
  { events := [{ type := SDL_KEYDOWN, sym := 97 }, escapeKeyDown],
    sdlKeyStates := fun _ => 0, ticks := 16, textureCreated := true }

/-- A frame without events. -/
def idleFrame (ticks : Nat) : Frame :=
  { events := [], sdlKeyStates := fun _ => 0, ticks := ticks, textureCreated := true }

/-- A platform on which every resource is created, with the given start time and frames. -/
def workingPlatform (startTicks : Nat) (frames : List Frame) : Platform :=
  { bigEndian := false, sdlInitialized := true, windowCreated := true,
    rendererCreated := true, surfaceCreated := true, startTicks := startTicks,
    frames := frames }

/-- Scale 1, white on black. -/
def plainConfig : EmuConfig := { screenScale := 1, palette := whiteOnBlack }

/-- A virtual machine without state: `set_key_pressed` on `Unit`. -/
def unitSetKey : Unit → Nat → Bool → Unit := fun _ _ _ => ()

/-- A virtual machine without state: `execute_step` on `Unit`. -/
def unitStep : EmuConfig → Unit → Nat → Unit := fun _ _ _ => ()

/-- The frame `escapeFrame` on a platform that fails to create the texture. -/
def escapeFrameWithoutTexture : Frame :=
  { events := [{ type := SDL_KEYDOWN, sym := 97 }, escapeKeyDown],
    sdlKeyStates := fun _ => 0, ticks := 16, textureCreated := false }

/-- A machine whose state is the list of elapsed times `execute_step` has received. -/
def recordStep : EmuConfig → List Nat → Nat → List Nat :=
  fun _ received deltaTimeMs => received ++ [deltaTimeMs]

/-- The recording machine ignores the keys. -/
def recordKey : List Nat → Nat → Bool → List Nat := fun received _ _ => received

/-- The recording machine has a dark screen. -/
def recordPixel : List Nat → Nat → Nat → Nat := fun _ _ _ => 0

/-- A machine whose state is the list of calls it has received: `set_key_pressed`. -/
def logKey : List Call → Nat → Bool → List Call :=
  fun received key pressed => received ++ [Call.set_key_pressed key pressed]

/-- The logging machine: `execute_step`. -/
def logStep : EmuConfig → List Call → Nat → List Call :=
  fun _ received deltaTimeMs => received ++ [Call.execute_step deltaTimeMs]

/-- The logging machine has a dark screen. -/
def logPixel : List Call → Nat → Nat → Nat := fun _ _ _ => 0

/-- A loop state of the logging machine at the top of the first iteration. -/
def freshLogState : LoopState (List Call) :=
  { state := [], image := fun _ => 0, previousTimeMs := 0, shouldExit := false, calls := [] }

/-! # Theorems -/

/-! ## `fill_image_buffer` -/


theorem writtenOffsets_append (l1 l2 : List Access) :
    writtenOffsets (l1 ++ l2) = writtenOffsets l1 ++ writtenOffsets l2 := by
  induction l1 with
  | nil => rfl
  | cons a l ih => cases a <;> simp [writtenOffsets, ih]

theorem writtenOffsets_flatMap {α : Type} (l : List α) (f : α → List Access) :
    writtenOffsets (l.flatMap f) = l.flatMap (fun a => writtenOffsets (f a)) := by
  induction l with
  | nil => rfl
  | cons a l ih => simp [List.flatMap_cons, writtenOffsets_append, ih]

theorem mem_readCoordinates (l : List Access) (x y : Nat) :
    (x, y) ∈ readCoordinates l ↔ Access.read x y ∈ l := by
  induction l with
  | nil => simp [readCoordinates]
  | cons a l ih => cases a <;> simp [readCoordinates, ih]

theorem mem_writtenOffsets (l : List Access) (k : Nat) :
    k ∈ writtenOffsets l ↔ ∃ v, Access.write k v ∈ l := by
  induction l with
  | nil => simp [writtenOffsets]
  | cons a l ih =>
    cases a with
    | read x y => simp [writtenOffsets, ih]
    | write o w =>
      simp only [writtenOffsets, List.mem_cons, ih, Access.write.injEq]
      constructor
      · rintro (h | ⟨v, hv⟩)
        · exact ⟨w, Or.inl ⟨h, rfl⟩⟩
        · exact ⟨v, Or.inr hv⟩
      · rintro ⟨v, (⟨h, _⟩ | hv)⟩
        · exact Or.inl h
        · exact Or.inr ⟨v, hv⟩

theorem foldl_perform_of_not_mem (l : List Access) (image : Image) (k : Nat)
    (hk : k ∉ writtenOffsets l) : (l.foldl perform image) k = image k := by
  induction l generalizing image with
  | nil => rfl
  | cons a l ih =>
    cases a with
    | read x y => exact ih image (by simpa [writtenOffsets] using hk)
    | write o w =>
      simp only [writtenOffsets, List.mem_cons, not_or] at hk
      rw [List.foldl_cons, ih _ hk.2]
      simp [perform, store, hk.1]

theorem foldl_perform_of_mem (l : List Access) (image : Image) (k v : Nat)
    (hnd : (writtenOffsets l).Nodup) (hk : Access.write k v ∈ l) :
    (l.foldl perform image) k = v := by
  induction l generalizing image with
  | nil => simp at hk
  | cons a l ih =>
    cases a with
    | read x y =>
      simp only [List.mem_cons] at hk
      rcases hk with hk | hk
      · cases hk
      · exact ih image (by simpa [writtenOffsets] using hnd) hk
    | write o w =>
      simp only [writtenOffsets, List.nodup_cons] at hnd
      simp only [List.mem_cons, Access.write.injEq] at hk
      rcases hk with ⟨rfl, rfl⟩ | hk
      · rw [List.foldl_cons, foldl_perform_of_not_mem _ _ _ hnd.1]
        simp [perform, store]
      · exact ih _ hnd.2 hk

theorem foldl_perform_congr (l : List Access) (image1 image2 : Image) (k : Nat)
    (hk : k ∈ writtenOffsets l) :
    (l.foldl perform image1) k = (l.foldl perform image2) k := by
  induction l generalizing image1 image2 with
  | nil => simp [writtenOffsets] at hk
  | cons a l ih =>
    cases a with
    | read x y => exact ih _ _ (by simpa [writtenOffsets] using hk)
    | write o w =>
      by_cases hmem : k ∈ writtenOffsets l
      · exact ih _ _ hmem
      · simp only [writtenOffsets, List.mem_cons] at hk
        have hko : k = o := by tauto
        rw [List.foldl_cons, List.foldl_cons, foldl_perform_of_not_mem _ _ _ hmem,
          foldl_perform_of_not_mem _ _ _ hmem]
        simp [perform, store, hko]

theorem flatMap_quad_range (b n : Nat) :
    (List.range n).flatMap (fun i => [(b + i) * 4, (b + i) * 4 + 1, (b + i) * 4 + 2, (b + i) * 4 + 3])
      = (List.range (n * 4)).map (fun x => b * 4 + x) := by
  induction n with
  | zero => simp
  | succ n ih =>
    rw [List.range_succ, List.flatMap_append, ih]
    have h4 : (n + 1) * 4 = n * 4 + 1 + 1 + 1 + 1 := by ring
    rw [h4, List.range_succ, List.range_succ, List.range_succ, List.range_succ]
    simp only [List.map_append, List.flatMap_cons, List.flatMap_nil, List.append_assoc,
      List.map_cons, List.map_nil, List.singleton_append, List.append_nil]
    congr 1
    simp only [List.cons_append, List.nil_append, List.cons.injEq, and_true]
    refine ⟨?_, ?_, ?_, ?_⟩ <;> ring

theorem flatMap_rows_range (m r : Nat) :
    (List.range m).flatMap (fun j => (List.range r).map (fun x => j * r + x))
      = List.range (m * r) := by
  induction m with
  | zero => simp
  | succ m ih =>
    rw [List.range_succ, List.flatMap_append, ih, Nat.succ_mul, List.range_add]
    simp


theorem mul32_eq (a b : Nat) (h : a * b < 2 ^ 32) : mul32 a b = a * b :=
  Nat.mod_eq_of_lt h

theorem add32_eq (a b : Nat) (h : a + b < 2 ^ 32) : add32 a b = a + b :=
  Nat.mod_eq_of_lt h

section FillLemmas

variable {CPUState : Type}
variable (ScreenWidth ScreenHeight : Nat)
variable (read_screen_pixel : CPUState → Nat → Nat → Nat)

theorem pixel_accesses_eq (state : CPUState) (palette : Palette) (scale i j : Nat)
    (hs : 1 ≤ scale) (h : (j * ScreenWidth * scale + i) * 4 + 3 < 2 ^ 32) :
    pixel_accesses ScreenWidth read_screen_pixel state palette scale i j =
      Access.read (i / scale) (j / scale) ::
        (List.range 4).map (fun c => Access.write ((j * ScreenWidth * scale + i) * 4 + c)
          ((pixel_color read_screen_pixel state palette (i / scale) (j / scale)).getD c 0)) := by
  have h1 : j * ScreenWidth ≤ j * ScreenWidth * scale := Nat.le_mul_of_pos_right _ hs
  have e1 : mul32 j ScreenWidth = j * ScreenWidth := mul32_eq _ _ (by omega)
  have e2 : mul32 (j * ScreenWidth) scale = j * ScreenWidth * scale := mul32_eq _ _ (by omega)
  have e3 : add32 (j * ScreenWidth * scale) i = j * ScreenWidth * scale + i :=
    add32_eq _ _ (by omega)
  have e4 : mul32 (j * ScreenWidth * scale + i) 4 = (j * ScreenWidth * scale + i) * 4 :=
    mul32_eq _ _ (by omega)
  have e5 : ∀ c, c ≤ 3 → add32 ((j * ScreenWidth * scale + i) * 4) c
      = (j * ScreenWidth * scale + i) * 4 + c := fun c hc => add32_eq _ _ (by omega)
  unfold pixel_accesses pixel_color
  simp only [pixelFormatBGRASizeInBytes, e1, e2, e3, e4, e5 0 (by omega), e5 1 (by omega),
    e5 2 (by omega), e5 3 (by omega)]
  split <;> rfl

theorem pixel_bound (W H s i j : Nat) (hi : i < W * s) (hj : j < H * s)
    (hb : W * s * H * s * 4 ≤ 2 ^ 32) : (j * W * s + i) * 4 + 3 < 2 ^ 32 := by
  have h1 : (j + 1) * (W * s) ≤ H * s * (W * s) := Nat.mul_le_mul_right _ hj
  have h2 : j * W * s = j * (W * s) := Nat.mul_assoc _ _ _
  have h3 : W * s * H * s * 4 = H * s * (W * s) * 4 := by ring
  have h4 : (j + 1) * (W * s) = j * (W * s) + W * s := by ring
  omega

theorem writtenOffsets_pixel (state : CPUState) (palette : Palette) (scale i j : Nat)
    (hs : 1 ≤ scale) (h : (j * ScreenWidth * scale + i) * 4 + 3 < 2 ^ 32) :
    writtenOffsets (pixel_accesses ScreenWidth read_screen_pixel state palette scale i j) =
      [(j * ScreenWidth * scale + i) * 4, (j * ScreenWidth * scale + i) * 4 + 1,
       (j * ScreenWidth * scale + i) * 4 + 2, (j * ScreenWidth * scale + i) * 4 + 3] := by
  rw [pixel_accesses_eq ScreenWidth read_screen_pixel state palette scale i j hs h]
  rfl

theorem writtenOffsets_row (state : CPUState) (palette : Palette) (scale j : Nat)
    (hs : 1 ≤ scale) (hj : j < ScreenHeight * scale)
    (hb : ScreenWidth * scale * ScreenHeight * scale * 4 ≤ 2 ^ 32) :
    writtenOffsets (row_accesses ScreenWidth read_screen_pixel state palette scale j) =
      (List.range (ScreenWidth * scale * 4)).map (fun x => j * (ScreenWidth * scale * 4) + x) := by
  have hH : 1 ≤ ScreenHeight * scale := by omega
  have hW : ScreenWidth * scale < 2 ^ 32 := by
    have : ScreenWidth * scale * 1 ≤ ScreenWidth * scale * (ScreenHeight * scale) :=
      Nat.mul_le_mul_left _ hH
    have h3 : ScreenWidth * scale * ScreenHeight * scale * 4
        = ScreenWidth * scale * (ScreenHeight * scale) * 4 := by ring
    omega
  unfold row_accesses
  rw [mul32_eq _ _ hW, writtenOffsets_flatMap]
  have hcongr : (List.range (ScreenWidth * scale)).flatMap
      (fun i => writtenOffsets
        (pixel_accesses ScreenWidth read_screen_pixel state palette scale i j))
      = (List.range (ScreenWidth * scale)).flatMap
        (fun i => [(j * (ScreenWidth * scale) + i) * 4, (j * (ScreenWidth * scale) + i) * 4 + 1,
          (j * (ScreenWidth * scale) + i) * 4 + 2, (j * (ScreenWidth * scale) + i) * 4 + 3]) := by
    apply List.flatMap_congr
    intro i hi
    rw [List.mem_range] at hi
    rw [writtenOffsets_pixel ScreenWidth read_screen_pixel state palette scale i j hs
      (pixel_bound ScreenWidth ScreenHeight scale i j hi hj hb), Nat.mul_assoc j]
  rw [hcongr, flatMap_quad_range]
  have : j * (ScreenWidth * scale) * 4 = j * (ScreenWidth * scale * 4) := by ring
  rw [this]

/-- Without 32-bit wraparound, one call stores to the byte offsets `0, 1, 2, ...` up to the
buffer length, in increasing order. -/
theorem writtenOffsets_fill (state : CPUState) (palette : Palette) (scale : Nat)
    (hs : 1 ≤ scale) (hb : ScreenWidth * scale * ScreenHeight * scale * 4 ≤ 2 ^ 32) :
    writtenOffsets (fill_image_buffer_accesses ScreenWidth ScreenHeight read_screen_pixel
      state palette scale) = List.range (ScreenWidth * scale * ScreenHeight * scale * 4) := by
  unfold fill_image_buffer_accesses
  rcases Nat.eq_zero_or_pos ScreenWidth with hW0 | hWpos
  · subst hW0
    simp [row_accesses, mul32, writtenOffsets_flatMap, writtenOffsets]
  rcases Nat.eq_zero_or_pos ScreenHeight with hH0 | hHpos
  · subst hH0
    simp [mul32, writtenOffsets]
  have hW : 1 ≤ ScreenWidth * scale := Nat.mul_pos hWpos hs
  have hH : ScreenHeight * scale < 2 ^ 32 := by
    have : 1 * (ScreenHeight * scale) ≤ ScreenWidth * scale * (ScreenHeight * scale) :=
      Nat.mul_le_mul_right _ hW
    have h3 : ScreenWidth * scale * ScreenHeight * scale * 4
        = ScreenWidth * scale * (ScreenHeight * scale) * 4 := by ring
    omega
  rw [mul32_eq _ _ hH, writtenOffsets_flatMap]
  have hcongr : (List.range (ScreenHeight * scale)).flatMap
      (fun j => writtenOffsets
        (row_accesses ScreenWidth read_screen_pixel state palette scale j))
      = (List.range (ScreenHeight * scale)).flatMap
        (fun j => (List.range (ScreenWidth * scale * 4)).map
          (fun x => j * (ScreenWidth * scale * 4) + x)) := by
    apply List.flatMap_congr
    intro j hj
    rw [List.mem_range] at hj
    exact writtenOffsets_row ScreenWidth ScreenHeight read_screen_pixel state palette scale j
      hs hj hb
  rw [hcongr, flatMap_rows_range]
  congr 1
  ring

theorem write_mem_fill (state : CPUState) (palette : Palette) (scale i j c : Nat)
    (hs : 1 ≤ scale) (hb : ScreenWidth * scale * ScreenHeight * scale * 4 ≤ 2 ^ 32)
    (hi : i < ScreenWidth * scale) (hj : j < ScreenHeight * scale) (hc : c < 4) :
    Access.write ((j * ScreenWidth * scale + i) * 4 + c)
        ((pixel_color read_screen_pixel state palette (i / scale) (j / scale)).getD c 0)
      ∈ fill_image_buffer_accesses ScreenWidth ScreenHeight read_screen_pixel state palette
          scale := by
  have hW : ScreenWidth * scale < 2 ^ 32 := by
    have h1 : 1 ≤ ScreenHeight * scale := by omega
    have : ScreenWidth * scale * 1 ≤ ScreenWidth * scale * (ScreenHeight * scale) :=
      Nat.mul_le_mul_left _ h1
    have h3 : ScreenWidth * scale * ScreenHeight * scale * 4
        = ScreenWidth * scale * (ScreenHeight * scale) * 4 := by ring
    omega
  have hH : ScreenHeight * scale < 2 ^ 32 := by
    have h1 : 1 ≤ ScreenWidth * scale := by omega
    have : 1 * (ScreenHeight * scale) ≤ ScreenWidth * scale * (ScreenHeight * scale) :=
      Nat.mul_le_mul_right _ h1
    have h3 : ScreenWidth * scale * ScreenHeight * scale * 4
        = ScreenWidth * scale * (ScreenHeight * scale) * 4 := by ring
    omega
  unfold fill_image_buffer_accesses row_accesses
  rw [mul32_eq _ _ hW, mul32_eq _ _ hH]
  refine List.mem_flatMap.mpr ⟨j, List.mem_range.mpr hj, List.mem_flatMap.mpr
    ⟨i, List.mem_range.mpr hi, ?_⟩⟩
  rw [pixel_accesses_eq ScreenWidth read_screen_pixel state palette scale i j hs
    (pixel_bound ScreenWidth ScreenHeight scale i j hi hj hb)]
  exact List.mem_cons_of_mem _ (List.mem_map.mpr ⟨c, List.mem_range.mpr hc, rfl⟩)

end FillLemmas


section FillTheorems

variable {CPUState : Type}
variable (ScreenWidth ScreenHeight : Nat)
variable (read_screen_pixel : CPUState → Nat → Nat → Nat)

theorem div_eq_of_block (s x i : Nat) (h1 : x * s ≤ i) (h2 : i < (x + 1) * s) : i / s = x := by
  have hs : 0 < s := by
    rcases Nat.eq_zero_or_pos s with h | h
    · subst h; simp at h2
    · exact h
  apply Nat.div_eq_of_lt_le
  · simpa [Nat.mul_comm] using h1
  · simpa [Nat.mul_comm] using h2

theorem writtenOffsets_lt (state : CPUState) (palette : Palette) (scale : Nat) :
    ∀ k ∈ writtenOffsets (fill_image_buffer_accesses ScreenWidth ScreenHeight
      read_screen_pixel state palette scale), k < 2 ^ 32 := by
  intro k hk
  rw [mem_writtenOffsets] at hk
  obtain ⟨v, hv⟩ := hk
  unfold fill_image_buffer_accesses row_accesses at hv
  obtain ⟨j, -, hv⟩ := List.mem_flatMap.mp hv
  obtain ⟨i, -, hv⟩ := List.mem_flatMap.mp hv
  unfold pixel_accesses at hv
  have hlt : ∀ a b, add32 a b < 2 ^ 32 := fun a b => Nat.mod_lt _ (by decide)
  simp only [List.mem_cons, Access.write.injEq] at hv
  split at hv <;>
    simp only [List.mem_cons, Access.write.injEq, List.mem_singleton, List.not_mem_nil,
      or_false] at hv <;>
    rcases hv with hv | ⟨hk, -⟩ | ⟨hk, -⟩ | ⟨hk, -⟩ | ⟨hk, -⟩ <;>
    first
      | cases hv
      | (rw [hk]; exact hlt _ _)

theorem fill_image_buffer_pixel (imageOutput : Image) (state : CPUState)
    (palette : Palette) (s i j c : Nat)
    (hs : 1 ≤ s) (hb : ScreenWidth * s * ScreenHeight * s * 4 ≤ 2 ^ 32)
    (hi : i < ScreenWidth * s) (hj : j < ScreenHeight * s) (hc : c < 4) :
    fill_image_buffer ScreenWidth ScreenHeight read_screen_pixel imageOutput state palette s
        ((j * ScreenWidth * s + i) * 4 + c)
      = (pixel_color read_screen_pixel state palette (i / s) (j / s)).getD c 0 := by
  have hmem := write_mem_fill ScreenWidth ScreenHeight read_screen_pixel state palette s i j c
    hs hb hi hj hc
  have hnd : (writtenOffsets (fill_image_buffer_accesses ScreenWidth ScreenHeight
      read_screen_pixel state palette s)).Nodup := by
    rw [writtenOffsets_fill ScreenWidth ScreenHeight read_screen_pixel state palette s hs hb]
    exact List.nodup_range _
  exact foldl_perform_of_mem _ imageOutput _ _ hnd hmem

/-- C1 (amended with the no-wraparound bound): nearest-neighbour upscaling. Whenever the
buffer length `ScreenWidth*s*ScreenHeight*s*4` is at most `2^32`, every output pixel `(i, j)`
of the block of the logical pixel `(x, y)` has, at byte offset `(j*ScreenWidth*s + i)*4 + c`,
byte `c` of the primary colour when `read_screen_pixel state x y` is non-zero and of the
secondary colour otherwise. -/
theorem fill_image_buffer_upscales (imageOutput : Image) (state : CPUState)
    (palette : Palette) (s x y i j c : Nat)
    (hs : 1 ≤ s) (hb : ScreenWidth * s * ScreenHeight * s * 4 ≤ 2 ^ 32)
    (hx : x < ScreenWidth) (hy : y < ScreenHeight)
    (hi1 : x * s ≤ i) (hi2 : i < (x + 1) * s) (hj1 : y * s ≤ j) (hj2 : j < (y + 1) * s)
    (hc : c < 4) :
    fill_image_buffer ScreenWidth ScreenHeight read_screen_pixel imageOutput state palette s
        ((j * ScreenWidth * s + i) * 4 + c)
      = (if read_screen_pixel state x y % 256 ≠ 0 then primaryColorBGRA palette
          else secondaryColorBGRA palette).getD c 0 := by
  have hi : i < ScreenWidth * s := lt_of_lt_of_le hi2 (Nat.mul_le_mul_right _ hx)
  have hj : j < ScreenHeight * s := lt_of_lt_of_le hj2 (Nat.mul_le_mul_right _ hy)
  have h := fill_image_buffer_pixel ScreenWidth ScreenHeight read_screen_pixel imageOutput
    state palette s i j c hs hb hi hj hc
  rw [div_eq_of_block s x i hi1 hi2, div_eq_of_block s y j hj1 hj2] at h
  exact h

end FillTheorems

/-- Scenario of C1 on the 64x32 screen: scale 4, white on black, only `(0, 0)` lit. The
top-left 4x4 block of output pixels is `{255,255,255,255}`, every other pixel is
`{0,0,0,255}`. -/
theorem fill_image_buffer_upscales_witness :
    (1 ≤ 4 ∧ 64 * 4 * 32 * 4 * 4 ≤ 2 ^ 32) ∧
    ∀ i j c, i < 64 * 4 → j < 32 * 4 → c < 4 →
      fill_image_buffer 64 32 onlyOriginLit (fun _ => 0) () whiteOnBlack 4
          ((j * 64 * 4 + i) * 4 + c)
        = if i < 4 ∧ j < 4 then 255 else [0, 0, 0, 255].getD c 0 := by
  refine ⟨by decide, ?_⟩
  intro i j c hi hj hc
  have h := fill_image_buffer_upscales 64 32 onlyOriginLit (fun _ => 0) () whiteOnBlack 4
    (i / 4) (j / 4) i j c (by decide) (by decide) (by omega) (by omega) (by omega) (by omega)
    (by omega) (by omega) hc
  rw [h]
  have hp : primaryColorBGRA whiteOnBlack = [255, 255, 255, 255] := by decide
  have hq : secondaryColorBGRA whiteOnBlack = [0, 0, 0, 255] := by decide
  rw [hp, hq]
  by_cases hblock : i < 4 ∧ j < 4
  · have h1 : i / 4 = 0 := by omega
    have h2 : j / 4 = 0 := by omega
    rw [if_pos hblock, h1, h2]
    have : c = 0 ∨ c = 1 ∨ c = 2 ∨ c = 3 := by omega
    rcases this with rfl | rfl | rfl | rfl <;> decide
  · have h1 : ¬ (i / 4 = 0 ∧ j / 4 = 0) := by omega
    rw [if_neg hblock]
    simp [onlyOriginLit, h1]

/-- Counterexample to C1 as stated (every `s ≥ 1`): on the 64x32 screen with scale 725 the
32-bit offset of output pixel `(45824, 23140)` wraps, so the byte at offset
`(j*64*725 + i)*4 = 2^32` keeps its previous content `7` instead of a colour byte. -/
theorem fill_image_buffer_upscales_fails_on_wrap :
    (1 ≤ 725 ∧ 63 < 64 ∧ 31 < 32 ∧ 63 * 725 ≤ 45824 ∧ 45824 < (63 + 1) * 725 ∧
      31 * 725 ≤ 23140 ∧ 23140 < (31 + 1) * 725) ∧
    fill_image_buffer 64 32 onlyOriginLit (fun _ => 7) () whiteOnBlack 725
        ((23140 * 64 * 725 + 45824) * 4 + 0) = 7 ∧
    (if onlyOriginLit () 63 31 % 256 ≠ 0 then primaryColorBGRA whiteOnBlack
      else secondaryColorBGRA whiteOnBlack).getD 0 0 = 0 := by
  refine ⟨by decide, ?_, by decide⟩
  unfold fill_image_buffer
  rw [foldl_perform_of_not_mem]
  intro hmem
  have := writtenOffsets_lt 64 32 onlyOriginLit () whiteOnBlack 725 _ hmem
  omega


section FillTheorems2

variable {CPUState : Type}
variable (ScreenWidth ScreenHeight : Nat)
variable (read_screen_pixel : CPUState → Nat → Nat → Nat)

theorem offset_injective (N i j c i2 j2 c2 : Nat) (hi : i < N) (hi2 : i2 < N)
    (hc : c < 4) (hc2 : c2 < 4) (h : (j * N + i) * 4 + c = (j2 * N + i2) * 4 + c2) :
    i = i2 ∧ j = j2 ∧ c = c2 := by
  have hcc : c = c2 := by omega
  have hflat : j * N + i = j2 * N + i2 := by omega
  have hN : 0 < N := by omega
  have h1 : (j * N + i) % N = i := by
    rw [Nat.add_comm, Nat.add_mul_mod_self_right, Nat.mod_eq_of_lt hi]
  have h2 : (j2 * N + i2) % N = i2 := by
    rw [Nat.add_comm, Nat.add_mul_mod_self_right, Nat.mod_eq_of_lt hi2]
  have hii : i = i2 := by rw [← h1, ← h2, hflat]
  subst hii
  have hjN : j * N = j2 * N := by omega
  exact ⟨rfl, Nat.eq_of_mul_eq_mul_right hN hjN, hcc⟩

theorem offset_surjective (N M k : Nat) (hk : k < N * M * 4) :
    ∃ i j c, i < N ∧ j < M ∧ c < 4 ∧ (j * N + i) * 4 + c = k := by
  have hN : 0 < N := by
    rcases Nat.eq_zero_or_pos N with h | h
    · subst h; simp at hk
    · exact h
  refine ⟨k / 4 % N, k / 4 / N, k % 4, Nat.mod_lt _ hN, ?_, Nat.mod_lt _ (by decide), ?_⟩
  · apply Nat.div_lt_of_lt_mul
    omega
  · have := Nat.div_add_mod (k / 4) N
    have h2 : k / 4 / N * N = N * (k / 4 / N) := Nat.mul_comm _ _
    omega

/-- C2 (amended with the no-wraparound bound): frame buffer completeness. Whenever the
buffer length `ScreenWidth*s*ScreenHeight*s*4` is at most `2^32`, one call stores to the byte
offsets `0, 1, ..., length - 1` (each exactly once), the map from the loop indices
`(i, j, c)` to the byte offset is a bijection onto these offsets, and the buffer after the
call does not depend on the buffer before it. -/
theorem fill_image_buffer_complete (state : CPUState) (palette : Palette) (s : Nat)
    (hs : 1 ≤ s) (hb : ScreenWidth * s * ScreenHeight * s * 4 ≤ 2 ^ 32) :
    writtenOffsets (fill_image_buffer_accesses ScreenWidth ScreenHeight read_screen_pixel
        state palette s) = List.range (ScreenWidth * s * ScreenHeight * s * 4) ∧
    (∀ k, k < ScreenWidth * s * ScreenHeight * s * 4 →
      (writtenOffsets (fill_image_buffer_accesses ScreenWidth ScreenHeight read_screen_pixel
        state palette s)).count k = 1) ∧
    (∀ i j c i2 j2 c2, i < ScreenWidth * s → i2 < ScreenWidth * s → c < 4 → c2 < 4 →
      (j * ScreenWidth * s + i) * 4 + c = (j2 * ScreenWidth * s + i2) * 4 + c2 →
      i = i2 ∧ j = j2 ∧ c = c2) ∧
    (∀ i j c, i < ScreenWidth * s → j < ScreenHeight * s → c < 4 →
      (j * ScreenWidth * s + i) * 4 + c < ScreenWidth * s * ScreenHeight * s * 4) ∧
    (∀ k, k < ScreenWidth * s * ScreenHeight * s * 4 →
      ∃ i j c, i < ScreenWidth * s ∧ j < ScreenHeight * s ∧ c < 4 ∧
        (j * ScreenWidth * s + i) * 4 + c = k) ∧
    (∀ (image1 image2 : Image) k, k < ScreenWidth * s * ScreenHeight * s * 4 →
      fill_image_buffer ScreenWidth ScreenHeight read_screen_pixel image1 state palette s k
        = fill_image_buffer ScreenWidth ScreenHeight read_screen_pixel image2 state palette
            s k) := by
  have hrange := writtenOffsets_fill ScreenWidth ScreenHeight read_screen_pixel state palette
    s hs hb
  refine ⟨hrange, ?_, ?_, ?_, ?_, ?_⟩
  · intro k hk
    rw [hrange]
    exact List.count_eq_one_of_mem (List.nodup_range _) (List.mem_range.mpr hk)
  · intro i j c i2 j2 c2 hi hi2 hc hc2 h
    rw [Nat.mul_assoc j, Nat.mul_assoc j2] at h
    exact offset_injective (ScreenWidth * s) i j c i2 j2 c2 hi hi2 hc hc2 h
  · intro i j c hi hj hc
    have h1 : (j + 1) * (ScreenWidth * s) ≤ ScreenHeight * s * (ScreenWidth * s) :=
      Nat.mul_le_mul_right _ hj
    have h2 : j * ScreenWidth * s = j * (ScreenWidth * s) := Nat.mul_assoc _ _ _
    have h3 : ScreenWidth * s * ScreenHeight * s * 4
        = ScreenHeight * s * (ScreenWidth * s) * 4 := by ring
    have h4 : (j + 1) * (ScreenWidth * s) = j * (ScreenWidth * s) + ScreenWidth * s := by ring
    omega
  · intro k hk
    have hk2 : k < ScreenWidth * s * (ScreenHeight * s) * 4 := by
      have : ScreenWidth * s * ScreenHeight * s * 4
          = ScreenWidth * s * (ScreenHeight * s) * 4 := by ring
      omega
    obtain ⟨i, j, c, hi, hj, hc, h⟩ := offset_surjective _ _ k hk2
    exact ⟨i, j, c, hi, hj, hc, by rw [Nat.mul_assoc j]; exact h⟩
  · intro image1 image2 k hk
    apply foldl_perform_congr
    rw [hrange]
    exact List.mem_range.mpr hk

/-- Instance of C2 on the 64x32 screen at scale 4 (buffer of 131072 bytes). -/
theorem fill_image_buffer_complete_witness :
    (1 ≤ 4 ∧ 64 * 4 * 32 * 4 * 4 ≤ 2 ^ 32) ∧
    writtenOffsets (fill_image_buffer_accesses 64 32 onlyOriginLit () whiteOnBlack 4)
      = List.range 131072 ∧
    fill_image_buffer 64 32 onlyOriginLit (fun _ => 0) () whiteOnBlack 4 131071
      = fill_image_buffer 64 32 onlyOriginLit (fun _ => 9) () whiteOnBlack 4 131071 :=
  ⟨by decide,
   (fill_image_buffer_complete 64 32 onlyOriginLit () whiteOnBlack 4 (by decide)
      (by decide)).1,
   (fill_image_buffer_complete 64 32 onlyOriginLit () whiteOnBlack 4 (by decide)
      (by decide)).2.2.2.2.2 _ _ 131071 (by decide)⟩

/-- Counterexample to C2 as stated (every `s ≥ 1`): on the 64x32 screen with scale 725 the
byte index `2^32` lies below `64*725*32*725*4`, is never stored to, and the buffers after
the call differ there for two different prior contents. -/
theorem fill_image_buffer_incomplete_on_wrap :
    (1 ≤ 725 ∧ 2 ^ 32 < 64 * 725 * 32 * 725 * 4) ∧
    (writtenOffsets (fill_image_buffer_accesses 64 32 onlyOriginLit () whiteOnBlack
      725)).count (2 ^ 32) = 0 ∧
    fill_image_buffer 64 32 onlyOriginLit (fun _ => 0) () whiteOnBlack 725 (2 ^ 32)
      ≠ fill_image_buffer 64 32 onlyOriginLit (fun _ => 1) () whiteOnBlack 725 (2 ^ 32) := by
  have hnot : 2 ^ 32 ∉ writtenOffsets
      (fill_image_buffer_accesses 64 32 onlyOriginLit () whiteOnBlack 725) := by
    intro hmem
    have := writtenOffsets_lt 64 32 onlyOriginLit () whiteOnBlack 725 _ hmem
    omega
  refine ⟨by decide, List.count_eq_zero_of_not_mem hnot, ?_⟩
  unfold fill_image_buffer
  rw [foldl_perform_of_not_mem _ _ _ hnot, foldl_perform_of_not_mem _ _ _ hnot]
  decide

theorem image_size_eq (s : Nat) (hs : 1 ≤ s)
    (hb : ScreenWidth * s * ScreenHeight * s * 4 < 2 ^ 32) :
    image_size ScreenWidth ScreenHeight s = ScreenWidth * s * ScreenHeight * s * 4 := by
  simp only [image_size, pixelFormatBGRASizeInBytes]
  rcases Nat.eq_zero_or_pos ScreenWidth with hW0 | hWpos
  · subst hW0; simp [mul32, U32]
  rcases Nat.eq_zero_or_pos ScreenHeight with hH0 | hHpos
  · subst hH0; simp [mul32, U32]
  have hfull : ScreenWidth * s * ScreenHeight * s * 4
      = ScreenWidth * s * 4 * ScreenHeight * s := by ring
  have h3 : ScreenWidth * s * 4 * ScreenHeight ≤ ScreenWidth * s * 4 * ScreenHeight * s :=
    Nat.le_mul_of_pos_right _ hs
  have h2 : ScreenWidth * s * 4 ≤ ScreenWidth * s * 4 * ScreenHeight :=
    Nat.le_mul_of_pos_right _ hHpos
  have h1 : ScreenWidth * s ≤ ScreenWidth * s * 4 := Nat.le_mul_of_pos_right _ (by decide)
  rw [mul32_eq ScreenWidth s (by omega), mul32_eq _ 4 (by omega),
    mul32_eq _ ScreenHeight (by omega), mul32_eq _ s (by omega), hfull]

theorem readCoordinates_lt (state : CPUState) (palette : Palette) (s : Nat) :
    ∀ p ∈ readCoordinates (fill_image_buffer_accesses ScreenWidth ScreenHeight
      read_screen_pixel state palette s), p.1 < ScreenWidth ∧ p.2 < ScreenHeight := by
  rintro ⟨x, y⟩ hp
  rw [mem_readCoordinates] at hp
  unfold fill_image_buffer_accesses row_accesses at hp
  obtain ⟨j, hj, hp⟩ := List.mem_flatMap.mp hp
  obtain ⟨i, hi, hp⟩ := List.mem_flatMap.mp hp
  rw [List.mem_range] at hi hj
  have hi2 : i < s * ScreenWidth :=
    lt_of_lt_of_le hi (le_trans (Nat.mod_le _ _) (le_of_eq (Nat.mul_comm _ _)))
  have hj2 : j < s * ScreenHeight :=
    lt_of_lt_of_le hj (le_trans (Nat.mod_le _ _) (le_of_eq (Nat.mul_comm _ _)))
  unfold pixel_accesses at hp
  simp only [List.mem_cons, Access.read.injEq] at hp
  rcases hp with ⟨rfl, rfl⟩ | hp
  · exact ⟨Nat.div_lt_of_lt_mul hi2, Nat.div_lt_of_lt_mul hj2⟩
  · split at hp <;> simp at hp

/-- C10: in-bounds accesses. For every scale `s ≥ 1` with `ScreenWidth*s*ScreenHeight*s*4`
below `2^32`, the buffer length computed by `execute_main_loop` is that product, every byte
offset `fill_image_buffer` stores to is below it, and every coordinate pair passed to
`read_screen_pixel` lies on the `ScreenWidth x ScreenHeight` screen. -/
theorem fill_image_buffer_in_bounds (state : CPUState) (palette : Palette) (s : Nat)
    (hs : 1 ≤ s) (hb : ScreenWidth * s * ScreenHeight * s * 4 < 2 ^ 32) :
    image_size ScreenWidth ScreenHeight s = ScreenWidth * s * ScreenHeight * s * 4 ∧
    (∀ k ∈ writtenOffsets (fill_image_buffer_accesses ScreenWidth ScreenHeight
        read_screen_pixel state palette s), k < image_size ScreenWidth ScreenHeight s) ∧
    (∀ p ∈ readCoordinates (fill_image_buffer_accesses ScreenWidth ScreenHeight
        read_screen_pixel state palette s), p.1 < ScreenWidth ∧ p.2 < ScreenHeight) := by
  refine ⟨image_size_eq ScreenWidth ScreenHeight s hs hb, ?_,
    readCoordinates_lt ScreenWidth ScreenHeight read_screen_pixel state palette s⟩
  intro k hk
  rw [writtenOffsets_fill ScreenWidth ScreenHeight read_screen_pixel state palette s hs
    (Nat.le_of_lt hb),
    List.mem_range] at hk
  rw [image_size_eq ScreenWidth ScreenHeight s hs hb]
  exact hk

end FillTheorems2

/-- Instance of C10 on the 64x32 screen at scale 4. -/
theorem fill_image_buffer_in_bounds_witness :
    (1 ≤ 4 ∧ 64 * 4 * 32 * 4 * 4 < 2 ^ 32) ∧
    image_size 64 32 4 = 131072 ∧
    (∀ k ∈ writtenOffsets (fill_image_buffer_accesses 64 32 onlyOriginLit () whiteOnBlack 4),
      k < image_size 64 32 4) ∧
    (∀ p ∈ readCoordinates (fill_image_buffer_accesses 64 32 onlyOriginLit () whiteOnBlack 4),
      p.1 < 64 ∧ p.2 < 32) :=
  ⟨by decide, fill_image_buffer_in_bounds 64 32 onlyOriginLit () whiteOnBlack 4 (by decide)
    (by decide)⟩

/-! ## Colour bytes -/


theorem truncMagnitude_eq_floor (m : Nat) (e : Int) :
    truncMagnitude m e = ⌊(m : ℚ) * 2 ^ e⌋₊ := by
  unfold truncMagnitude
  split
  · rename_i he
    have : (m : ℚ) * 2 ^ e = ((m * 2 ^ e.toNat : ℕ) : ℚ) := by
      conv_lhs => rw [← Int.toNat_of_nonneg he]
      rw [zpow_natCast]; push_cast; rfl
    rw [this, Nat.floor_natCast]
  · rename_i he
    have hneg : e = -((-e).toNat : ℤ) := by
      rw [Int.toNat_of_nonneg (by omega)]; ring
    have : (m : ℚ) * 2 ^ e = (m : ℚ) / ((2 ^ (-e).toNat : ℕ) : ℚ) := by
      conv_lhs => rw [hneg]
      rw [zpow_neg, zpow_natCast, div_eq_mul_inv]; push_cast; rfl
    rw [this, Nat.floor_div_eq_div]

theorem bitLengthAux_spec (fuel n : Nat) (h : n ≤ fuel) :
    n < 2 ^ bitLengthAux fuel n ∧ (n ≠ 0 → 2 ^ (bitLengthAux fuel n - 1) ≤ n) := by
  induction fuel generalizing n with
  | zero =>
    have : n = 0 := by omega
    subst this
    simp [bitLengthAux]
  | succ fuel ih =>
    unfold bitLengthAux
    split
    · rename_i h0
      subst h0; simp
    · rename_i h0
      obtain ⟨h1, h2⟩ := ih (n / 2) (by omega)
      constructor
      · rw [Nat.add_comm, Nat.pow_succ]; omega
      · intro _
        simp only [Nat.add_sub_cancel_left]
        by_cases hn2 : n / 2 = 0
        · rw [hn2]
          have : bitLengthAux fuel 0 = 0 := by cases fuel <;> simp [bitLengthAux]
          rw [this]; simp; omega
        · have h3 := h2 hn2
          have hpos : 1 ≤ bitLengthAux fuel (n / 2) := by
            rcases Nat.eq_zero_or_pos (bitLengthAux fuel (n / 2)) with hz | hz
            · rw [hz] at h1; simp at h1; omega
            · exact hz
          have : bitLengthAux fuel (n / 2) = (bitLengthAux fuel (n / 2) - 1) + 1 := by omega
          rw [this, Nat.pow_succ]; omega

theorem lt_two_pow_bitLength (n : Nat) : n < 2 ^ bitLength n :=
  (bitLengthAux_spec n n (le_refl n)).1

theorem two_pow_bitLength_le (n : Nat) (h : n ≠ 0) : 2 ^ (bitLength n - 1) ≤ n :=
  (bitLengthAux_spec n n (le_refl n)).2 h

theorem bitLength_le_of_lt (n b : Nat) (h : n < 2 ^ b) : bitLength n ≤ b := by
  rcases Nat.eq_zero_or_pos n with h0 | h0
  · subst h0; simp [bitLength, bitLengthAux]
  · have h1 := two_pow_bitLength_le n (by omega)
    have h2 : 2 ^ (bitLength n - 1) < 2 ^ b := lt_of_le_of_lt h1 h
    rw [Nat.pow_lt_pow_iff_right (by decide)] at h2
    omega

theorem roundSignificand_exact (m : Nat) (e : Int) (h : m < 2 ^ 24) :
    roundSignificand m e = (m, e) := by
  unfold roundSignificand
  rw [if_pos (show bitLength m ≤ significandBits from bitLength_le_of_lt m 24 h)]

theorem mul_zpow_neg_le (a n b : ℕ) : (a : ℚ) * 2 ^ (-(n : ℤ)) ≤ b ↔ a ≤ b * 2 ^ n := by
  rw [zpow_neg, zpow_natCast, ← div_eq_mul_inv, div_le_iff₀ (by positivity)]
  exact_mod_cast Iff.rfl

theorem roundSignificand_le (m : Nat) (e : Int) (h : (m : ℚ) * 2 ^ e ≤ 255) :
    ((roundSignificand m e).1 : ℚ) * 2 ^ (roundSignificand m e).2 ≤ 255 := by
  unfold roundSignificand
  split
  · exact h
  · rename_i hbits
    simp only [significandBits] at hbits ⊢
    have hm0 : m ≠ 0 := by
      rintro rfl
      simp [bitLength, bitLengthAux] at hbits
    have hlow := two_pow_bitLength_le m hm0
    obtain ⟨k, hk⟩ : ∃ k, bitLength m = 24 + (k + 1) := ⟨bitLength m - 25, by omega⟩
    have hk1 : bitLength m - 24 = k + 1 := by omega
    have hk2 : bitLength m - 1 = 24 + k := by omega
    rw [hk2] at hlow
    simp only [hk1, Nat.add_sub_cancel]
    -- the exponent after rounding is at most -16
    have hexp : e + ((k + 1 : ℕ) : ℤ) ≤ -16 := by
      by_contra hcon
      have he : -(24 + (k : ℤ)) + 8 ≤ e := by push_cast at hcon; omega
      have h1 : (2 : ℚ) ^ (-(24 + (k : ℤ)) + 8) ≤ 2 ^ e := zpow_le_zpow_right₀ (by norm_num) he
      have h2 : (2 : ℚ) ^ (-(24 + (k : ℤ)) + 8) = 256 / 2 ^ (24 + k) := by
        rw [zpow_add₀ (by norm_num), zpow_neg]
        have : (2 : ℚ) ^ (24 + (k : ℤ)) = 2 ^ (24 + k) := by
          rw [← zpow_natCast]; push_cast; rfl
        rw [this]; norm_num; ring
      have h3 : ((2 ^ (24 + k) : ℕ) : ℚ) ≤ m := by exact_mod_cast hlow
      have hpos : (0 : ℚ) < 2 ^ (24 + k) := by positivity
      have h4 : (256 : ℚ) ≤ m * 2 ^ e := by
        calc (256 : ℚ) = 2 ^ (24 + k) * (256 / 2 ^ (24 + k)) := by field_simp
          _ ≤ m * 2 ^ e := by
            apply mul_le_mul _ (h2 ▸ h1) (by positivity) (by positivity)
            exact_mod_cast hlow
      linarith
    obtain ⟨t, ht⟩ : ∃ t : ℕ, e + ((k + 1 : ℕ) : ℤ) = -(t : ℤ) :=
      ⟨(-(e + ((k + 1 : ℕ) : ℤ))).toNat, by rw [Int.toNat_of_nonneg (by omega)]; ring⟩
    have he : e = -((t + (k + 1) : ℕ) : ℤ) := by push_cast at ht ⊢; omega
    have h' : m ≤ 2 ^ (k + 1) * (255 * 2 ^ t) := by
      rw [he] at h
      have h5 := (mul_zpow_neg_le m (t + (k + 1)) 255).mp (by exact_mod_cast h)
      have h6 : (255 : ℕ) * 2 ^ (t + (k + 1)) = 2 ^ (k + 1) * (255 * 2 ^ t) := by
        rw [Nat.pow_add]; ring
      omega
    have hq : m / 2 ^ (k + 1) ≤ 255 * 2 ^ t := Nat.div_le_of_le_mul h'
    have hdm := Nat.div_add_mod m (2 ^ (k + 1))
    have hhalf : 1 ≤ 2 ^ k := Nat.one_le_two_pow
    have hq1 : (if 2 ^ k < m % 2 ^ (k + 1) ∨ m % 2 ^ (k + 1) = 2 ^ k ∧ m / 2 ^ (k + 1) % 2 = 1
        then m / 2 ^ (k + 1) + 1 else m / 2 ^ (k + 1)) ≤ 255 * 2 ^ t := by
      split
      · rename_i hup
        by_contra hcon
        have hge : 255 * 2 ^ t ≤ m / 2 ^ (k + 1) := by omega
        have := Nat.mul_le_mul_left (2 ^ (k + 1)) hge
        have hr0 : m % 2 ^ (k + 1) = 0 := by omega
        omega
      · exact hq
    rw [ht]
    exact (mul_zpow_neg_le _ t 255).mpr hq1

theorem truncMagnitude_zero (e : Int) : truncMagnitude 0 e = 0 := by
  unfold truncMagnitude; split <;> simp

theorem static_cast_u8_of_nonneg (m : Nat) (e : Int) (h : (m : ℚ) * 2 ^ e ≤ 255) :
    ((static_cast_u8 ⟨false, m, e⟩ : ℕ) : ℤ) = ⌊(m : ℚ) * 2 ^ e⌋ := by
  have hx0 : (0 : ℚ) ≤ (m : ℚ) * 2 ^ e := by positivity
  have hfl : ⌊(m : ℚ) * 2 ^ e⌋₊ ≤ 255 := by
    have : ⌊(m : ℚ) * 2 ^ e⌋₊ ≤ ⌊(255 : ℚ)⌋₊ := Nat.floor_mono h
    simpa using this
  unfold static_cast_u8
  simp only [Bool.false_eq_true, if_false]
  rw [truncMagnitude_eq_floor, ← Int.natCast_floor_eq_floor hx0]
  omega

theorem roundSignificand_of_representable (m : Nat) (e : Int) (m2 : Nat) (e2 : Int)
    (hm2 : m2 < 2 ^ 24) (hval : (m2 : ℚ) * 2 ^ e2 = (m : ℚ) * 2 ^ e) :
    ((roundSignificand m e).1 : ℚ) * 2 ^ (roundSignificand m e).2 = (m : ℚ) * 2 ^ e := by
  unfold roundSignificand
  split
  · rfl
  · rename_i hbits
    simp only [significandBits] at hbits ⊢
    have hm0 : m ≠ 0 := by
      rintro rfl
      simp [bitLength, bitLengthAux] at hbits
    have hlow := two_pow_bitLength_le m hm0
    obtain ⟨k, hk⟩ : ∃ k, bitLength m = 24 + (k + 1) := ⟨bitLength m - 25, by omega⟩
    have hk1 : bitLength m - 24 = k + 1 := by omega
    have hk2 : bitLength m - 1 = 24 + k := by omega
    rw [hk2] at hlow
    simp only [hk1, Nat.add_sub_cancel]
    have h2pos : (0 : ℚ) < 2 ^ e := by positivity
    have h2pos2 : (0 : ℚ) < 2 ^ e2 := by positivity
    -- the two exponents differ by at least `k + 1`
    obtain ⟨d, hd, hmd⟩ : ∃ d : ℕ, e2 = e + (d : ℤ) ∧ m = m2 * 2 ^ d := by
      rcases le_total e e2 with hle | hle
      · refine ⟨(e2 - e).toNat, by rw [Int.toNat_of_nonneg (by omega)]; ring, ?_⟩
        have he2 : e2 = e + ((e2 - e).toNat : ℤ) := by
          rw [Int.toNat_of_nonneg (by omega)]; ring
        rw [he2, zpow_add₀ (by norm_num), zpow_natCast] at hval
        have hq : (m : ℚ) = (m2 : ℚ) * 2 ^ (e2 - e).toNat := by
          have := mul_right_cancel₀ (ne_of_gt h2pos)
            (show (m2 : ℚ) * 2 ^ (e2 - e).toNat * 2 ^ e = (m : ℚ) * 2 ^ e by
              rw [← hval]; ring)
          exact this.symm
        exact_mod_cast hq
      · exfalso
        have he : e = e2 + ((e - e2).toNat : ℤ) := by
          rw [Int.toNat_of_nonneg (by omega)]; ring
        rw [he, zpow_add₀ (by norm_num), zpow_natCast] at hval
        have hq : (m2 : ℚ) = (m : ℚ) * 2 ^ (e - e2).toNat := by
          have := mul_right_cancel₀ (ne_of_gt h2pos2)
            (show (m : ℚ) * 2 ^ (e - e2).toNat * 2 ^ e2 = (m2 : ℚ) * 2 ^ e2 by
              rw [hval]; ring)
          exact this.symm
        have hn : m2 = m * 2 ^ (e - e2).toNat := by exact_mod_cast hq
        have h1 : m ≤ m * 2 ^ (e - e2).toNat := Nat.le_mul_of_pos_right _ Nat.one_le_two_pow
        have h24 : 2 ^ 24 ≤ 2 ^ (24 + k) := Nat.pow_le_pow_right (by decide) (by omega)
        omega
    have hdk : k + 1 ≤ d := by
      by_contra hcon
      have hdle : d ≤ k := by omega
      have h1 : 2 ^ d ≤ 2 ^ k := Nat.pow_le_pow_right (by decide) hdle
      have h2 : m2 * 2 ^ d ≤ m2 * 2 ^ k := Nat.mul_le_mul_left _ h1
      have h3 : m2 * 2 ^ k < 2 ^ 24 * 2 ^ k :=
        Nat.mul_lt_mul_of_pos_right hm2 (by positivity)
      have h4 : 2 ^ (24 + k) = 2 ^ 24 * 2 ^ k := Nat.pow_add _ _ _
      omega
    have hdvd : 2 ^ (k + 1) ∣ m := by
      rw [hmd]
      exact Dvd.dvd.mul_left (Nat.pow_dvd_pow 2 hdk) _
    have hr : m % 2 ^ (k + 1) = 0 := Nat.mod_eq_zero_of_dvd hdvd
    have hhalf : 1 ≤ 2 ^ k := Nat.one_le_two_pow
    have hq1 : (if 2 ^ k < m % 2 ^ (k + 1) ∨ m % 2 ^ (k + 1) = 2 ^ k ∧ m / 2 ^ (k + 1) % 2 = 1
        then m / 2 ^ (k + 1) + 1 else m / 2 ^ (k + 1)) = m / 2 ^ (k + 1) := by
      rw [hr]
      rw [if_neg]
      rintro (h | ⟨h, -⟩) <;> omega
    rw [hq1]
    have hmul : m / 2 ^ (k + 1) * 2 ^ (k + 1) = m := Nat.div_mul_cancel hdvd
    have hcast : ((m / 2 ^ (k + 1) : ℕ) : ℚ) * 2 ^ (k + 1) = (m : ℚ) := by exact_mod_cast hmul
    rw [zpow_add₀ (by norm_num), zpow_natCast]
    calc ((m / 2 ^ (k + 1) : ℕ) : ℚ) * (2 ^ e * 2 ^ (k + 1))
        = ((m / 2 ^ (k + 1) : ℕ) : ℚ) * 2 ^ (k + 1) * 2 ^ e := by ring
      _ = (m : ℚ) * 2 ^ e := by rw [hcast]

theorem roundSignificand_error (m : Nat) (e : Int) :
    |((roundSignificand m e).1 : ℚ) * 2 ^ (roundSignificand m e).2 - (m : ℚ) * 2 ^ e|
      ≤ (m : ℚ) * 2 ^ e / 2 ^ 24 := by
  have h2pos : (0 : ℚ) < 2 ^ e := by positivity
  unfold roundSignificand
  split
  · simp only [sub_self, abs_zero]
    positivity
  · rename_i hbits
    simp only [significandBits] at hbits ⊢
    have hm0 : m ≠ 0 := by
      rintro rfl
      simp [bitLength, bitLengthAux] at hbits
    have hlow := two_pow_bitLength_le m hm0
    obtain ⟨k, hk⟩ : ∃ k, bitLength m = 24 + (k + 1) := ⟨bitLength m - 25, by omega⟩
    have hk1 : bitLength m - 24 = k + 1 := by omega
    have hk2 : bitLength m - 1 = 24 + k := by omega
    rw [hk2] at hlow
    simp only [hk1, Nat.add_sub_cancel]
    have hdm := Nat.div_add_mod m (2 ^ (k + 1))
    have hrlt : m % 2 ^ (k + 1) < 2 ^ (k + 1) := Nat.mod_lt _ (by positivity)
    have hpow : 2 ^ (k + 1) = 2 * 2 ^ k := by rw [Nat.pow_succ]; ring
    -- the rounded significand, scaled back, is within `2^k` of `m`
    have hnear : (if 2 ^ k < m % 2 ^ (k + 1) ∨ m % 2 ^ (k + 1) = 2 ^ k ∧ m / 2 ^ (k + 1) % 2 = 1
          then m / 2 ^ (k + 1) + 1 else m / 2 ^ (k + 1)) * 2 ^ (k + 1) ≤ m + 2 ^ k ∧
        m ≤ (if 2 ^ k < m % 2 ^ (k + 1) ∨ m % 2 ^ (k + 1) = 2 ^ k ∧ m / 2 ^ (k + 1) % 2 = 1
          then m / 2 ^ (k + 1) + 1 else m / 2 ^ (k + 1)) * 2 ^ (k + 1) + 2 ^ k := by
      have hcomm : m / 2 ^ (k + 1) * 2 ^ (k + 1) = 2 ^ (k + 1) * (m / 2 ^ (k + 1)) :=
        Nat.mul_comm _ _
      split
      · rename_i hup
        have hge : 2 ^ k ≤ m % 2 ^ (k + 1) := by
          rcases hup with h | ⟨h, -⟩ <;> omega
        rw [Nat.add_mul, Nat.one_mul]
        constructor <;> omega
      · rename_i hdown
        have hle : m % 2 ^ (k + 1) ≤ 2 ^ k := by
          by_contra hcon
          exact hdown (Or.inl (by omega))
        constructor <;> omega
    generalize (if 2 ^ k < m % 2 ^ (k + 1) ∨ m % 2 ^ (k + 1) = 2 ^ k ∧ m / 2 ^ (k + 1) % 2 = 1
          then m / 2 ^ (k + 1) + 1 else m / 2 ^ (k + 1)) = q1 at hnear ⊢
    obtain ⟨hn1, hn2⟩ := hnear
    have hx : (q1 : ℚ) * 2 ^ (e + ((k + 1 : ℕ) : ℤ)) = ((q1 * 2 ^ (k + 1) : ℕ) : ℚ) * 2 ^ e := by
      rw [zpow_add₀ (by norm_num), zpow_natCast]
      push_cast
      ring
    rw [hx, ← sub_mul, abs_mul, abs_of_pos h2pos, mul_div_right_comm]
    apply mul_le_mul_of_nonneg_right _ (le_of_lt h2pos)
    have hd : |((q1 * 2 ^ (k + 1) : ℕ) : ℚ) - (m : ℚ)| ≤ ((2 ^ k : ℕ) : ℚ) := by
      rw [abs_le]
      constructor
      · have : (m : ℚ) ≤ ((q1 * 2 ^ (k + 1) + 2 ^ k : ℕ) : ℚ) := by exact_mod_cast hn2
        push_cast at this ⊢
        linarith
      · have : ((q1 * 2 ^ (k + 1) : ℕ) : ℚ) ≤ ((m + 2 ^ k : ℕ) : ℚ) := by exact_mod_cast hn1
        push_cast at this ⊢
        linarith
    have hk24 : ((2 ^ k : ℕ) : ℚ) ≤ (m : ℚ) / 2 ^ 24 := by
      rw [le_div_iff₀ (by positivity)]
      have h4 : 2 ^ k * 2 ^ 24 ≤ m := by
        have : 2 ^ (24 + k) = 2 ^ k * 2 ^ 24 := by rw [Nat.pow_add]; ring
        omega
      exact_mod_cast h4
    exact le_trans hd hk24

/-- The product `c * 255.f` rounds ties to the even significand: `255 * 65795` and
`255 * 65797` both lie half-way between two 24-bit significands. -/
theorem mul255_ties_to_even :
    mul255 ⟨false, 65795, -17⟩ = ⟨false, 8388862, -16⟩ ∧
    mul255 ⟨false, 65797, -17⟩ = ⟨false, 8389118, -16⟩ := by
  decide

/-- C4 (amended: the conversion truncates): for every channel intensity `c` with
`0 ≤ c ≤ 1`, in any encoding `m * 2^e`, the colour byte is the integer part (floor) of the
single-precision product `c * 255.f`; it equals the rounded product only when the fractional
part of the product is below one half; the single-precision product is `c * 255` rounded to
nearest, within `c * 255 * 2^-24` of it, and it is exactly `c * 255` whenever `c * 255` is a
single-precision value, that is `m2 * 2^e2` with `m2 < 2^24`. -/
theorem channel_byte_truncates (c : F32) (h0 : 0 ≤ c.toRat) (h1 : c.toRat ≤ 1) :
    ((channel_byte c : ℕ) : ℤ) = ⌊(mul255 c).toRat⌋ ∧
    (((channel_byte c : ℕ) : ℤ) = round (mul255 c).toRat ↔
      2 * Int.fract (mul255 c).toRat < 1) ∧
    ((∃ (m2 : ℕ) (e2 : ℤ), m2 < 2 ^ 24 ∧ (m2 : ℚ) * 2 ^ e2 = c.toRat * 255) →
      (mul255 c).toRat = c.toRat * 255 ∧ ((channel_byte c : ℕ) : ℤ) = ⌊c.toRat * 255⌋) ∧
    |(mul255 c).toRat - c.toRat * 255| ≤ c.toRat * 255 / 2 ^ 24 := by
  have hfloor : ((channel_byte c : ℕ) : ℤ) = ⌊(mul255 c).toRat⌋ := by
    obtain ⟨sign, m, e⟩ := c
    have hpow : (0 : ℚ) < 2 ^ e := by positivity
    cases sign with
    | true =>
      have hm : m = 0 := by
        simp only [F32.toRat, if_true] at h0
        by_contra hne
        have : (0 : ℚ) < (m : ℚ) * 2 ^ e := by
          have : (0 : ℚ) < m := by exact_mod_cast Nat.pos_of_ne_zero hne
          positivity
        nlinarith
      subst hm
      simp [channel_byte, mul255, roundSignificand_exact, static_cast_u8, truncMagnitude_zero,
        F32.toRat]
    | false =>
      simp only [F32.toRat, Bool.false_eq_true, if_false, one_mul] at h1
      have hle : ((m * 255 : ℕ) : ℚ) * 2 ^ e ≤ 255 := by
        push_cast
        nlinarith
      have hr := roundSignificand_le (m * 255) e hle
      have := static_cast_u8_of_nonneg _ _ hr
      simpa [channel_byte, mul255, F32.toRat] using this
  have hexact : (∃ (m2 : ℕ) (e2 : ℤ), m2 < 2 ^ 24 ∧ (m2 : ℚ) * 2 ^ e2 = c.toRat * 255) →
      (mul255 c).toRat = c.toRat * 255 := by
    rintro ⟨m2, e2, hm2, hval⟩
    obtain ⟨sign, m, e⟩ := c
    have hpow : (0 : ℚ) < 2 ^ e := by positivity
    cases sign with
    | true =>
      have hm : m = 0 := by
        simp only [F32.toRat, if_true] at h0
        by_contra hne
        have : (0 : ℚ) < (m : ℚ) * 2 ^ e := by
          have : (0 : ℚ) < m := by exact_mod_cast Nat.pos_of_ne_zero hne
          positivity
        nlinarith
      subst hm
      simp [mul255, roundSignificand_exact, F32.toRat]
    | false =>
      have hval2 : (m2 : ℚ) * 2 ^ e2 = ((m * 255 : ℕ) : ℚ) * 2 ^ e := by
        rw [hval]
        simp only [F32.toRat, Bool.false_eq_true, if_false, one_mul]
        push_cast
        ring
      have hr := roundSignificand_of_representable (m * 255) e m2 e2 hm2 hval2
      simp only [mul255, F32.toRat, Bool.false_eq_true, if_false, one_mul]
      rw [hr]
      push_cast
      ring
  have herr : |(mul255 c).toRat - c.toRat * 255| ≤ c.toRat * 255 / 2 ^ 24 := by
    obtain ⟨sign, m, e⟩ := c
    cases sign with
    | true =>
      have hm : m = 0 := by
        have hpow : (0 : ℚ) < 2 ^ e := by positivity
        simp only [F32.toRat, if_true] at h0
        by_contra hne
        have : (0 : ℚ) < (m : ℚ) * 2 ^ e := by
          have : (0 : ℚ) < m := by exact_mod_cast Nat.pos_of_ne_zero hne
          positivity
        nlinarith
      subst hm
      simp [mul255, roundSignificand_exact, F32.toRat]
    | false =>
      have hr := roundSignificand_error (m * 255) e
      simp only [mul255, F32.toRat, Bool.false_eq_true, if_false, one_mul]
      have e1 : (m : ℚ) * 2 ^ e * 255 = ((m * 255 : ℕ) : ℚ) * 2 ^ e := by
        push_cast
        ring
      rw [e1]
      exact hr
  refine ⟨hfloor, ?_, fun hrep => ⟨hexact hrep, by rw [hfloor, hexact hrep]⟩, herr⟩
  rw [hfloor]
  unfold round
  split
  · rename_i hlt
    simp [hlt]
  · rename_i hge
    simp only [hge, iff_false]
    intro heq
    apply hge
    have h2 : (mul255 c).toRat ≤ ⌊(mul255 c).toRat⌋ := by
      rw [heq]; exact Int.le_ceil _
    have h3 : ((⌊(mul255 c).toRat⌋ : ℤ) : ℚ) ≤ (mul255 c).toRat := Int.floor_le _
    have h4 : Int.fract (mul255 c).toRat = 0 := by
      rw [← Int.self_sub_floor]; linarith
    rw [h4]; norm_num

/-- Instance of C4 (amended) at `c = 0.5` in its normalised single-precision encoding
`8388608 * 2^-24`: the byte is `127`, the product `127.5 = 255 * 2^-1` is exact, and
`127 = ⌊127.5⌋`. -/
theorem channel_byte_truncates_witness :
    (0 ≤ (⟨false, 8388608, -24⟩ : F32).toRat ∧ (⟨false, 8388608, -24⟩ : F32).toRat ≤ 1) ∧
    channel_byte ⟨false, 8388608, -24⟩ = 127 ∧
    ((channel_byte ⟨false, 8388608, -24⟩ : ℕ) : ℤ)
      = ⌊(mul255 ⟨false, 8388608, -24⟩).toRat⌋ ∧
    (mul255 ⟨false, 8388608, -24⟩).toRat = (⟨false, 8388608, -24⟩ : F32).toRat * 255 ∧
    ((channel_byte ⟨false, 8388608, -24⟩ : ℕ) : ℤ)
      = ⌊(⟨false, 8388608, -24⟩ : F32).toRat * 255⌋ := by
  have h0 : 0 ≤ (⟨false, 8388608, -24⟩ : F32).toRat := by norm_num [F32.toRat]
  have h1 : (⟨false, 8388608, -24⟩ : F32).toRat ≤ 1 := by norm_num [F32.toRat]
  have hrep : ∃ (m2 : ℕ) (e2 : ℤ), m2 < 2 ^ 24 ∧
      (m2 : ℚ) * 2 ^ e2 = (⟨false, 8388608, -24⟩ : F32).toRat * 255 :=
    ⟨255, -1, by decide, by norm_num [F32.toRat]⟩
  exact ⟨⟨h0, h1⟩, by decide, (channel_byte_truncates ⟨false, 8388608, -24⟩ h0 h1).1,
    (channel_byte_truncates ⟨false, 8388608, -24⟩ h0 h1).2.2.1 hrep⟩

/-- Counterexample to C4 as stated: the channel intensity `0.5` lies in `[0, 1]`, the code
computes the byte `127`, and `round(0.5 * 255) = 128`. -/
theorem channel_byte_not_rounded :
    (⟨false, 1, -1⟩ : F32).toRat = 1 / 2 ∧
    channel_byte ⟨false, 1, -1⟩ = 127 ∧
    (round ((1 / 2 : ℚ) * 255) % 256).toNat = 128 := by
  refine ⟨by norm_num [F32.toRat], by decide, ?_⟩
  have : round ((1 / 2 : ℚ) * 255) = 128 := by
    rw [round_eq, Int.floor_eq_iff]; norm_num
  rw [this]; rfl

/-! ## Byte order of the written pixels and the masks of the surface -/

theorem and_shiftRight (a b i : Nat) : (a &&& b) >>> i = a >>> i &&& b >>> i := by
  apply Nat.eq_of_testBit_eq
  intro k
  simp [Nat.testBit_shiftRight, Nat.testBit_and]

theorem extract_channel_byte (mask pixel shift : Nat) (hshift : maskShift mask = shift)
    (hmask : mask >>> shift = 2 ^ 8 - 1) :
    extract_channel mask pixel = pixel / 2 ^ shift % 2 ^ 8 := by
  unfold extract_channel
  rw [hshift, and_shiftRight, hmask, Nat.and_pow_two_sub_one_eq_mod, Nat.shiftRight_eq_div_pow]

theorem static_cast_u8_lt (x : F32) : static_cast_u8 x < 256 := by
  unfold static_cast_u8
  simp only []
  have h := Int.emod_lt_of_pos
    (if x.sign = true then -(truncMagnitude x.m x.e : Int) else (truncMagnitude x.m x.e : Int))
    (show (0 : Int) < 256 by decide)
  have h2 := Int.emod_nonneg
    (if x.sign = true then -(truncMagnitude x.m x.e : Int) else (truncMagnitude x.m x.e : Int))
    (show (256 : Int) ≠ 0 by decide)
  omega

theorem getD_lt_of_forall (l : List Nat) (c : Nat) (h : ∀ v ∈ l, v < 256) :
    l.getD c 0 < 256 := by
  rw [List.getD_eq_getElem?_getD]
  cases hget : l[c]? with
  | none => simp
  | some v =>
    obtain ⟨hc, hv⟩ := List.getElem?_eq_some.mp hget
    exact h v (hv ▸ List.getElem_mem hc)

theorem surface_channels_of_bytes (bigEndian : Bool) (image : Image) (offset : Nat)
    (h0 : image offset < 256) (h1 : image (offset + 1) < 256) (h2 : image (offset + 2) < 256)
    (h3 : image (offset + 3) < 256) :
    extract_channel (surface_masks bigEndian).rmask (load32 bigEndian image offset)
      = image offset ∧
    extract_channel (surface_masks bigEndian).gmask (load32 bigEndian image offset)
      = image (offset + 1) ∧
    extract_channel (surface_masks bigEndian).bmask (load32 bigEndian image offset)
      = image (offset + 2) ∧
    extract_channel (surface_masks bigEndian).amask (load32 bigEndian image offset)
      = image (offset + 3) := by
  cases bigEndian
  · simp only [surface_masks, load32, Bool.false_eq_true, if_false]
    rw [extract_channel_byte 0x000000ff _ 0 (by decide) (by decide),
      extract_channel_byte 0x0000ff00 _ 8 (by decide) (by decide),
      extract_channel_byte 0x00ff0000 _ 16 (by decide) (by decide),
      extract_channel_byte 0xff000000 _ 24 (by decide) (by decide)]
    refine ⟨?_, ?_, ?_, ?_⟩ <;> omega
  · simp only [surface_masks, load32, if_true]
    rw [extract_channel_byte 0xff000000 _ 24 (by decide) (by decide),
      extract_channel_byte 0x00ff0000 _ 16 (by decide) (by decide),
      extract_channel_byte 0x0000ff00 _ 8 (by decide) (by decide),
      extract_channel_byte 0x000000ff _ 0 (by decide) (by decide)]
    refine ⟨?_, ?_, ?_, ?_⟩ <;> omega

section SurfaceTheorems

variable {CPUState : Type}
variable (ScreenWidth ScreenHeight : Nat)
variable (read_screen_pixel : CPUState → Nat → Nat → Nat)

theorem pixel_color_lt (state : CPUState) (palette : Palette) (x y c : Nat) :
    (pixel_color read_screen_pixel state palette x y).getD c 0 < 256 := by
  apply getD_lt_of_forall
  intro v hv
  unfold pixel_color at hv
  split at hv <;>
    simp only [primaryColorBGRA, secondaryColorBGRA, List.mem_cons, List.mem_singleton,
      List.not_mem_nil, or_false] at hv <;>
    rcases hv with rfl | rfl | rfl | rfl <;>
    first
      | exact static_cast_u8_lt _
      | decide

/-- What the surface reads from a pixel written by `fill_image_buffer`: the red mask selects
the byte converted from the blue intensity and the blue mask the byte converted from the red
intensity, on either byte order. -/
theorem surface_pixel_channels (bigEndian : Bool) (imageOutput : Image) (state : CPUState)
    (palette : Palette) (s i j : Nat)
    (hs : 1 ≤ s) (hb : ScreenWidth * s * ScreenHeight * s * 4 ≤ 2 ^ 32)
    (hi : i < ScreenWidth * s) (hj : j < ScreenHeight * s) :
    extract_channel (surface_masks bigEndian).rmask
        (surface_pixel bigEndian (fill_image_buffer ScreenWidth ScreenHeight read_screen_pixel
          imageOutput state palette s) (ScreenWidth * s) i j)
      = (pixel_color read_screen_pixel state palette (i / s) (j / s)).getD 0 0 ∧
    extract_channel (surface_masks bigEndian).gmask
        (surface_pixel bigEndian (fill_image_buffer ScreenWidth ScreenHeight read_screen_pixel
          imageOutput state palette s) (ScreenWidth * s) i j)
      = (pixel_color read_screen_pixel state palette (i / s) (j / s)).getD 1 0 ∧
    extract_channel (surface_masks bigEndian).bmask
        (surface_pixel bigEndian (fill_image_buffer ScreenWidth ScreenHeight read_screen_pixel
          imageOutput state palette s) (ScreenWidth * s) i j)
      = (pixel_color read_screen_pixel state palette (i / s) (j / s)).getD 2 0 ∧
    extract_channel (surface_masks bigEndian).amask
        (surface_pixel bigEndian (fill_image_buffer ScreenWidth ScreenHeight read_screen_pixel
          imageOutput state palette s) (ScreenWidth * s) i j)
      = (pixel_color read_screen_pixel state palette (i / s) (j / s)).getD 3 0 := by
  have hpix := fun c hc => fill_image_buffer_pixel ScreenWidth ScreenHeight read_screen_pixel
    imageOutput state palette s i j c hs hb hi hj hc
  have e0 := hpix 0 (by decide)
  have e1 := hpix 1 (by decide)
  have e2 := hpix 2 (by decide)
  have e3 := hpix 3 (by decide)
  rw [Nat.mul_assoc j] at e0 e1 e2 e3
  rw [Nat.add_zero] at e0
  have hlt := pixel_color_lt read_screen_pixel state palette (i / s) (j / s)
  unfold surface_pixel
  have h := surface_channels_of_bytes bigEndian
    (fill_image_buffer ScreenWidth ScreenHeight read_screen_pixel imageOutput state palette s)
    ((j * (ScreenWidth * s) + i) * 4)
    (by rw [e0]; exact hlt 0) (by rw [e1]; exact hlt 1) (by rw [e2]; exact hlt 2)
    (by rw [e3]; exact hlt 3)
  rw [e0, e1, e2, e3] at h
  exact h

end SurfaceTheorems

/-- C3 at the failing input: with a pure red primary colour and a lit pixel, the surface
reads red 0 and blue 255 from the written pixel on either byte order, whereas the bytes
converted from the palette are red 255 and blue 0; in general the red mask selects the
byte converted from `b` and the blue mask the byte converted from `r`. -/
theorem surface_reads_red_as_blue :
    (channel_byte redOnBlack.primary.r = 255 ∧ channel_byte redOnBlack.primary.b = 0 ∧
      onlyOriginLit () 0 0 ≠ 0) ∧
    (∀ bigEndian : Bool,
      extract_channel (surface_masks bigEndian).rmask
          (surface_pixel bigEndian (fill_image_buffer 64 32 onlyOriginLit (fun _ => 0) ()
            redOnBlack 1) (64 * 1) 0 0) = 0 ∧
      extract_channel (surface_masks bigEndian).bmask
          (surface_pixel bigEndian (fill_image_buffer 64 32 onlyOriginLit (fun _ => 0) ()
            redOnBlack 1) (64 * 1) 0 0) = 255) ∧
    (∀ (bigEndian : Bool) (palette : Palette),
      extract_channel (surface_masks bigEndian).rmask
          (surface_pixel bigEndian (fill_image_buffer 64 32 onlyOriginLit (fun _ => 0) ()
            palette 1) (64 * 1) 0 0) = channel_byte palette.primary.b ∧
      extract_channel (surface_masks bigEndian).gmask
          (surface_pixel bigEndian (fill_image_buffer 64 32 onlyOriginLit (fun _ => 0) ()
            palette 1) (64 * 1) 0 0) = channel_byte palette.primary.g ∧
      extract_channel (surface_masks bigEndian).bmask
          (surface_pixel bigEndian (fill_image_buffer 64 32 onlyOriginLit (fun _ => 0) ()
            palette 1) (64 * 1) 0 0) = channel_byte palette.primary.r ∧
      extract_channel (surface_masks bigEndian).amask
          (surface_pixel bigEndian (fill_image_buffer 64 32 onlyOriginLit (fun _ => 0) ()
            palette 1) (64 * 1) 0 0) = 255) := by
  have hgen : ∀ (bigEndian : Bool) (palette : Palette),
      extract_channel (surface_masks bigEndian).rmask
          (surface_pixel bigEndian (fill_image_buffer 64 32 onlyOriginLit (fun _ => 0) ()
            palette 1) (64 * 1) 0 0) = channel_byte palette.primary.b ∧
      extract_channel (surface_masks bigEndian).gmask
          (surface_pixel bigEndian (fill_image_buffer 64 32 onlyOriginLit (fun _ => 0) ()
            palette 1) (64 * 1) 0 0) = channel_byte palette.primary.g ∧
      extract_channel (surface_masks bigEndian).bmask
          (surface_pixel bigEndian (fill_image_buffer 64 32 onlyOriginLit (fun _ => 0) ()
            palette 1) (64 * 1) 0 0) = channel_byte palette.primary.r ∧
      extract_channel (surface_masks bigEndian).amask
          (surface_pixel bigEndian (fill_image_buffer 64 32 onlyOriginLit (fun _ => 0) ()
            palette 1) (64 * 1) 0 0) = 255 := by
    intro bigEndian palette
    have h := surface_pixel_channels 64 32 onlyOriginLit bigEndian (fun _ => 0) () palette 1
      0 0 (by decide) (by decide) (by decide) (by decide)
    have hc : pixel_color onlyOriginLit () palette (0 / 1) (0 / 1) = primaryColorBGRA palette := by
      simp [pixel_color, onlyOriginLit]
    rw [hc] at h
    simpa [primaryColorBGRA] using h
  refine ⟨by decide, ?_, hgen⟩
  intro bigEndian
  have h := hgen bigEndian redOnBlack
  have hr : channel_byte redOnBlack.primary.r = 255 := by decide
  have hb : channel_byte redOnBlack.primary.b = 0 := by decide
  rw [hr, hb] at h
  exact ⟨h.1, h.2.2.1⟩

/-! ## The event-poll loop -/

theorem handle_event_eq (shouldExit : Bool) (sdlEvent : SDL_Event) :
    handle_event shouldExit sdlEvent = (shouldExit || is_quit_trigger sdlEvent) := by
  unfold handle_event is_quit_trigger
  by_cases h1 : sdlEvent.type = SDL_QUIT
  · simp [h1]
  · by_cases h2 : sdlEvent.type = SDL_KEYDOWN
    · have hne : SDL_KEYDOWN ≠ SDL_QUIT := by decide
      by_cases h3 : sdlEvent.sym = SDLK_ESCAPE <;> simp [h2, h3, hne]
    · simp [h1, h2]

theorem poll_events_eq (queue : List SDL_Event) (shouldExit : Bool) (calls : List Call) :
    poll_events queue shouldExit calls =
      { pending := [],
        shouldExit := shouldExit || queue.any is_quit_trigger,
        calls := calls ++ queue.map (fun sdlEvent => Call.SDL_PollEvent (some sdlEvent))
          ++ [Call.SDL_PollEvent none] } := by
  induction queue generalizing shouldExit calls with
  | nil => simp [poll_events]
  | cons sdlEvent rest ih =>
    rw [poll_events, ih, handle_event_eq]
    simp [Bool.or_assoc]

theorem polled_events_append (l1 l2 : List Call) :
    polled_events (l1 ++ l2) = polled_events l1 ++ polled_events l2 := by
  simp [polled_events, List.filterMap_append]

theorem polled_events_map (queue : List SDL_Event) :
    polled_events (queue.map (fun sdlEvent => Call.SDL_PollEvent (some sdlEvent))) = queue := by
  induction queue with
  | nil => rfl
  | cons sdlEvent rest ih =>
    simp only [polled_events] at ih
    simp [polled_events, List.filterMap_cons, ih]

/-- C6: quit-draining. For every finite queue of pending events the event-poll loop polls
every queued event, in order, and leaves the queue empty; the quit flag afterwards is true
exactly when it was true before or some drained event is a window-close event or a key-down
event whose key is escape. -/
theorem poll_events_drains (queue : List SDL_Event) (shouldExit : Bool) (calls : List Call) :
    (poll_events queue shouldExit calls).pending = [] ∧
    polled_events (poll_events queue shouldExit calls).calls = polled_events calls ++ queue ∧
    ((poll_events queue shouldExit calls).shouldExit = true ↔
      shouldExit = true ∨ ∃ sdlEvent ∈ queue, sdlEvent.type = SDL_QUIT ∨
        (sdlEvent.type = SDL_KEYDOWN ∧ sdlEvent.sym = SDLK_ESCAPE)) := by
  rw [poll_events_eq]
  refine ⟨rfl, ?_, ?_⟩
  · simp only [polled_events_append, polled_events_map]
    simp [polled_events]
  · simp [is_quit_trigger]

/-! ## The main loop -/

section MainLoopTheorems

variable {CPUState : Type}
variable (ScreenWidth ScreenHeight : Nat)
variable (read_screen_pixel : CPUState → Nat → Nat → Nat)
variable (set_key_pressed : CPUState → Nat → Bool → CPUState)
variable (execute_step : EmuConfig → CPUState → Nat → CPUState)

theorem main_loop_of_shouldExit (config : EmuConfig) (frames : List Frame)
    (ls : LoopState CPUState) (h : ls.shouldExit = true) :
    main_loop ScreenWidth ScreenHeight read_screen_pixel set_key_pressed execute_step config
      frames ls = shut_down ls := by
  cases frames <;> simp [main_loop, h]

theorem main_loop_cons_running (config : EmuConfig) (frame : Frame) (frames : List Frame)
    (ls : LoopState CPUState) (hrun : ls.shouldExit = false)
    (htex : frame.textureCreated = true) :
    main_loop ScreenWidth ScreenHeight read_screen_pixel set_key_pressed execute_step config
      (frame :: frames) ls =
    main_loop ScreenWidth ScreenHeight read_screen_pixel set_key_pressed execute_step config
      frames (present_frame frame (run_frame ScreenWidth ScreenHeight read_screen_pixel
        set_key_pressed execute_step config frame ls)) := by
  rw [main_loop]
  simp [hrun, htex]

theorem main_loop_cons_aborted (config : EmuConfig) (frame : Frame) (frames : List Frame)
    (ls : LoopState CPUState) (hrun : ls.shouldExit = false)
    (htex : frame.textureCreated = false) :
    (main_loop ScreenWidth ScreenHeight read_screen_pixel set_key_pressed execute_step config
      (frame :: frames) ls).calls =
    (run_frame ScreenWidth ScreenHeight read_screen_pixel set_key_pressed execute_step config
      frame ls).calls := by
  rw [main_loop]
  simp [hrun, htex]

theorem main_loop_cons_failed (config : EmuConfig) (frame : Frame) (frames : List Frame)
    (ls : LoopState CPUState) (hrun : ls.shouldExit = false)
    (htex : frame.textureCreated = false) :
    main_loop ScreenWidth ScreenHeight read_screen_pixel set_key_pressed execute_step config
      (frame :: frames) ls =
    { calls := (run_frame ScreenWidth ScreenHeight read_screen_pixel set_key_pressed
        execute_step config frame ls).calls,
      state := (run_frame ScreenWidth ScreenHeight read_screen_pixel set_key_pressed
        execute_step config frame ls).state,
      image := (run_frame ScreenWidth ScreenHeight read_screen_pixel set_key_pressed
        execute_step config frame ls).image,
      outcome := Outcome.aborted } := by
  rw [main_loop]
  simp [hrun, htex]

theorem run_frame_calls (config : EmuConfig) (frame : Frame) (ls : LoopState CPUState) :
    (run_frame ScreenWidth ScreenHeight read_screen_pixel set_key_pressed execute_step config
      frame ls).calls =
    (poll_events frame.events ls.shouldExit ls.calls).calls ++ key_calls frame.sdlKeyStates
      ++ [Call.SDL_GetTicks frame.ticks,
          Call.execute_step (sub32 frame.ticks ls.previousTimeMs),
          Call.fill_image_buffer, Call.SDL_CreateTextureFromSurface] := rfl

theorem run_frame_state (config : EmuConfig) (frame : Frame) (ls : LoopState CPUState) :
    (run_frame ScreenWidth ScreenHeight read_screen_pixel set_key_pressed execute_step config
      frame ls).state =
    execute_step config (update_keys set_key_pressed key_mapping frame.sdlKeyStates ls.state)
      (sub32 frame.ticks ls.previousTimeMs) := rfl

theorem key_calls_eq (sdlKeyStates : Nat → Nat) :
    key_calls sdlKeyStates =
      [Call.SDL_GetKeyboardState,
       Call.set_key_pressed 0x1 (decide (sdlKeyStates SDL_SCANCODE_1 ≠ 0)),
       Call.set_key_pressed 0x2 (decide (sdlKeyStates SDL_SCANCODE_2 ≠ 0)),
       Call.set_key_pressed 0x3 (decide (sdlKeyStates SDL_SCANCODE_3 ≠ 0)),
       Call.set_key_pressed 0xC (decide (sdlKeyStates SDL_SCANCODE_4 ≠ 0)),
       Call.set_key_pressed 0x4 (decide (sdlKeyStates SDL_SCANCODE_Q ≠ 0)),
       Call.set_key_pressed 0x5 (decide (sdlKeyStates SDL_SCANCODE_W ≠ 0)),
       Call.set_key_pressed 0x6 (decide (sdlKeyStates SDL_SCANCODE_E ≠ 0)),
       Call.set_key_pressed 0xD (decide (sdlKeyStates SDL_SCANCODE_R ≠ 0)),
       Call.set_key_pressed 0x7 (decide (sdlKeyStates SDL_SCANCODE_A ≠ 0)),
       Call.set_key_pressed 0x8 (decide (sdlKeyStates SDL_SCANCODE_S ≠ 0)),
       Call.set_key_pressed 0x9 (decide (sdlKeyStates SDL_SCANCODE_D ≠ 0)),
       Call.set_key_pressed 0xE (decide (sdlKeyStates SDL_SCANCODE_F ≠ 0)),
       Call.set_key_pressed 0xA (decide (sdlKeyStates SDL_SCANCODE_Z ≠ 0)),
       Call.set_key_pressed 0x0 (decide (sdlKeyStates SDL_SCANCODE_X ≠ 0)),
       Call.set_key_pressed 0xB (decide (sdlKeyStates SDL_SCANCODE_C ≠ 0)),
       Call.set_key_pressed 0xF (decide (sdlKeyStates SDL_SCANCODE_V ≠ 0))] := rfl

theorem update_keys_key_mapping (sdlKeyStates : Nat → Nat) (state : CPUState) :
    update_keys set_key_pressed key_mapping sdlKeyStates state =
      set_key_pressed (set_key_pressed (set_key_pressed (set_key_pressed
      (set_key_pressed (set_key_pressed (set_key_pressed (set_key_pressed
      (set_key_pressed (set_key_pressed (set_key_pressed (set_key_pressed
      (set_key_pressed (set_key_pressed (set_key_pressed (set_key_pressed state
        0x1 (decide (sdlKeyStates SDL_SCANCODE_1 ≠ 0)))
        0x2 (decide (sdlKeyStates SDL_SCANCODE_2 ≠ 0)))
        0x3 (decide (sdlKeyStates SDL_SCANCODE_3 ≠ 0)))
        0xC (decide (sdlKeyStates SDL_SCANCODE_4 ≠ 0)))
        0x4 (decide (sdlKeyStates SDL_SCANCODE_Q ≠ 0)))
        0x5 (decide (sdlKeyStates SDL_SCANCODE_W ≠ 0)))
        0x6 (decide (sdlKeyStates SDL_SCANCODE_E ≠ 0)))
        0xD (decide (sdlKeyStates SDL_SCANCODE_R ≠ 0)))
        0x7 (decide (sdlKeyStates SDL_SCANCODE_A ≠ 0)))
        0x8 (decide (sdlKeyStates SDL_SCANCODE_S ≠ 0)))
        0x9 (decide (sdlKeyStates SDL_SCANCODE_D ≠ 0)))
        0xE (decide (sdlKeyStates SDL_SCANCODE_F ≠ 0)))
        0xA (decide (sdlKeyStates SDL_SCANCODE_Z ≠ 0)))
        0x0 (decide (sdlKeyStates SDL_SCANCODE_X ≠ 0)))
        0xB (decide (sdlKeyStates SDL_SCANCODE_C ≠ 0)))
        0xF (decide (sdlKeyStates SDL_SCANCODE_V ≠ 0)) := rfl

theorem main_loop_quit_frame (config : EmuConfig) (frame : Frame) (frames : List Frame)
    (ls : LoopState CPUState) (hrun : ls.shouldExit = false)
    (hquit : (poll_events frame.events ls.shouldExit ls.calls).shouldExit = true) :
    (main_loop ScreenWidth ScreenHeight read_screen_pixel set_key_pressed execute_step config
        (frame :: frames) ls).calls =
      (poll_events frame.events ls.shouldExit ls.calls).calls
        ++ key_calls frame.sdlKeyStates
        ++ [Call.SDL_GetTicks frame.ticks,
            Call.execute_step (sub32 frame.ticks ls.previousTimeMs),
            Call.fill_image_buffer, Call.SDL_CreateTextureFromSurface]
        ++ (if frame.textureCreated = true then
              [Call.SDL_RenderClear, Call.SDL_RenderCopy, Call.SDL_RenderPresent,
               Call.SDL_DestroyTexture, Call.SDL_FreeSurface, Call.SDL_DestroyRenderer,
               Call.SDL_DestroyWindow, Call.SDL_Quit]
            else []) ∧
    (main_loop ScreenWidth ScreenHeight read_screen_pixel set_key_pressed execute_step config
        (frame :: frames) ls).outcome =
      (if frame.textureCreated = true then Outcome.returned EXIT_SUCCESS
        else Outcome.aborted) ∧
    (main_loop ScreenWidth ScreenHeight read_screen_pixel set_key_pressed execute_step config
        (frame :: frames) ls).state =
      execute_step config
        (update_keys set_key_pressed key_mapping frame.sdlKeyStates ls.state)
        (sub32 frame.ticks ls.previousTimeMs) ∧
    (main_loop ScreenWidth ScreenHeight read_screen_pixel set_key_pressed execute_step config
        (frame :: frames) ls).image =
      fill_image_buffer ScreenWidth ScreenHeight read_screen_pixel ls.image
        (execute_step config
          (update_keys set_key_pressed key_mapping frame.sdlKeyStates ls.state)
          (sub32 frame.ticks ls.previousTimeMs))
        config.palette config.screenScale := by
  by_cases htex : frame.textureCreated = true
  · rw [main_loop_cons_running _ _ _ _ _ _ _ _ _ hrun htex,
      main_loop_of_shouldExit _ _ _ _ _ _ _ _ hquit]
    rw [if_pos htex, if_pos htex]
    refine ⟨?_, rfl, rfl, rfl⟩
    simp [shut_down, present_frame, run_frame_calls]
  · have htex2 : frame.textureCreated = false := by simpa using htex
    rw [main_loop_cons_failed _ _ _ _ _ _ _ _ _ hrun htex2]
    rw [if_neg htex, if_neg htex]
    refine ⟨?_, rfl, rfl, rfl⟩
    simp [run_frame_calls]

theorem main_loop_quit_frame_explicit (config : EmuConfig) (frame : Frame)
    (frames : List Frame) (ls : LoopState CPUState) (hrun : ls.shouldExit = false)
    (hquit : (poll_events frame.events ls.shouldExit ls.calls).shouldExit = true) :
    (main_loop ScreenWidth ScreenHeight read_screen_pixel set_key_pressed execute_step config
        (frame :: frames) ls).calls =
      ls.calls ++ frame.events.map (fun sdlEvent => Call.SDL_PollEvent (some sdlEvent))
        ++ [Call.SDL_PollEvent none,
         Call.SDL_GetKeyboardState,
         Call.set_key_pressed 0x1 (decide (frame.sdlKeyStates SDL_SCANCODE_1 ≠ 0)),
         Call.set_key_pressed 0x2 (decide (frame.sdlKeyStates SDL_SCANCODE_2 ≠ 0)),
         Call.set_key_pressed 0x3 (decide (frame.sdlKeyStates SDL_SCANCODE_3 ≠ 0)),
         Call.set_key_pressed 0xC (decide (frame.sdlKeyStates SDL_SCANCODE_4 ≠ 0)),
         Call.set_key_pressed 0x4 (decide (frame.sdlKeyStates SDL_SCANCODE_Q ≠ 0)),
         Call.set_key_pressed 0x5 (decide (frame.sdlKeyStates SDL_SCANCODE_W ≠ 0)),
         Call.set_key_pressed 0x6 (decide (frame.sdlKeyStates SDL_SCANCODE_E ≠ 0)),
         Call.set_key_pressed 0xD (decide (frame.sdlKeyStates SDL_SCANCODE_R ≠ 0)),
         Call.set_key_pressed 0x7 (decide (frame.sdlKeyStates SDL_SCANCODE_A ≠ 0)),
         Call.set_key_pressed 0x8 (decide (frame.sdlKeyStates SDL_SCANCODE_S ≠ 0)),
         Call.set_key_pressed 0x9 (decide (frame.sdlKeyStates SDL_SCANCODE_D ≠ 0)),
         Call.set_key_pressed 0xE (decide (frame.sdlKeyStates SDL_SCANCODE_F ≠ 0)),
         Call.set_key_pressed 0xA (decide (frame.sdlKeyStates SDL_SCANCODE_Z ≠ 0)),
         Call.set_key_pressed 0x0 (decide (frame.sdlKeyStates SDL_SCANCODE_X ≠ 0)),
         Call.set_key_pressed 0xB (decide (frame.sdlKeyStates SDL_SCANCODE_C ≠ 0)),
         Call.set_key_pressed 0xF (decide (frame.sdlKeyStates SDL_SCANCODE_V ≠ 0)),
         Call.SDL_GetTicks frame.ticks,
         Call.execute_step (sub32 frame.ticks ls.previousTimeMs),
         Call.fill_image_buffer, Call.SDL_CreateTextureFromSurface]
        ++ (if frame.textureCreated = true then
              [Call.SDL_RenderClear, Call.SDL_RenderCopy, Call.SDL_RenderPresent,
               Call.SDL_DestroyTexture, Call.SDL_FreeSurface, Call.SDL_DestroyRenderer,
               Call.SDL_DestroyWindow, Call.SDL_Quit]
            else []) ∧
    (main_loop ScreenWidth ScreenHeight read_screen_pixel set_key_pressed execute_step config
        (frame :: frames) ls).outcome =
      (if frame.textureCreated = true then Outcome.returned EXIT_SUCCESS
        else Outcome.aborted) ∧
    (main_loop ScreenWidth ScreenHeight read_screen_pixel set_key_pressed execute_step config
        (frame :: frames) ls).state =
      execute_step config
        (key_mapping.foldl
          (fun machine entry =>
            set_key_pressed machine entry.2 (decide (frame.sdlKeyStates entry.1 ≠ 0)))
          ls.state)
        (sub32 frame.ticks ls.previousTimeMs) ∧
    (main_loop ScreenWidth ScreenHeight read_screen_pixel set_key_pressed execute_step config
        (frame :: frames) ls).image =
      fill_image_buffer ScreenWidth ScreenHeight read_screen_pixel ls.image
        (execute_step config
          (key_mapping.foldl
            (fun machine entry =>
              set_key_pressed machine entry.2 (decide (frame.sdlKeyStates entry.1 ≠ 0)))
            ls.state)
          (sub32 frame.ticks ls.previousTimeMs))
        config.palette config.screenScale := by
  obtain ⟨h1, h2, h3, h4⟩ := main_loop_quit_frame ScreenWidth ScreenHeight read_screen_pixel
    set_key_pressed execute_step config frame frames ls hrun hquit
  refine ⟨?_, h2, h3, h4⟩
  rw [h1, poll_events_eq, key_calls_eq]
  simp

/-- C9 (amended with the outcome of texture creation): quit is checked only at the top of
the loop. In the iteration whose event drain sets the quit flag, the rest of the body runs
once, in the order key sampling (the sixteen `set_key_pressed` calls), `execute_step` with
the elapsed time, `fill_image_buffer` on the stepped state, texture creation. When the
texture is created, clear, copy, present and texture destruction follow, no further
iteration starts, whatever frames remain, surface, renderer, window and the SDL subsystem
are released in that order and the function returns `EXIT_SUCCESS`; when it is not, the
`Assert` of line 159 aborts right after texture creation. The machine state and the image
are those the calls produce. -/
theorem main_loop_quit_frame_completes (config : EmuConfig) (frame : Frame)
    (frames : List Frame) (ls : LoopState CPUState) (hrun : ls.shouldExit = false)
    (hquit : (poll_events frame.events ls.shouldExit ls.calls).shouldExit = true) :
    (main_loop ScreenWidth ScreenHeight read_screen_pixel set_key_pressed execute_step config
        (frame :: frames) ls).calls =
      ls.calls ++ frame.events.map (fun sdlEvent => Call.SDL_PollEvent (some sdlEvent))
        ++ [Call.SDL_PollEvent none,
         Call.SDL_GetKeyboardState,
         Call.set_key_pressed 0x1 (decide (frame.sdlKeyStates SDL_SCANCODE_1 ≠ 0)),
         Call.set_key_pressed 0x2 (decide (frame.sdlKeyStates SDL_SCANCODE_2 ≠ 0)),
         Call.set_key_pressed 0x3 (decide (frame.sdlKeyStates SDL_SCANCODE_3 ≠ 0)),
         Call.set_key_pressed 0xC (decide (frame.sdlKeyStates SDL_SCANCODE_4 ≠ 0)),
         Call.set_key_pressed 0x4 (decide (frame.sdlKeyStates SDL_SCANCODE_Q ≠ 0)),
         Call.set_key_pressed 0x5 (decide (frame.sdlKeyStates SDL_SCANCODE_W ≠ 0)),
         Call.set_key_pressed 0x6 (decide (frame.sdlKeyStates SDL_SCANCODE_E ≠ 0)),
         Call.set_key_pressed 0xD (decide (frame.sdlKeyStates SDL_SCANCODE_R ≠ 0)),
         Call.set_key_pressed 0x7 (decide (frame.sdlKeyStates SDL_SCANCODE_A ≠ 0)),
         Call.set_key_pressed 0x8 (decide (frame.sdlKeyStates SDL_SCANCODE_S ≠ 0)),
         Call.set_key_pressed 0x9 (decide (frame.sdlKeyStates SDL_SCANCODE_D ≠ 0)),
         Call.set_key_pressed 0xE (decide (frame.sdlKeyStates SDL_SCANCODE_F ≠ 0)),
         Call.set_key_pressed 0xA (decide (frame.sdlKeyStates SDL_SCANCODE_Z ≠ 0)),
         Call.set_key_pressed 0x0 (decide (frame.sdlKeyStates SDL_SCANCODE_X ≠ 0)),
         Call.set_key_pressed 0xB (decide (frame.sdlKeyStates SDL_SCANCODE_C ≠ 0)),
         Call.set_key_pressed 0xF (decide (frame.sdlKeyStates SDL_SCANCODE_V ≠ 0)),
         Call.SDL_GetTicks frame.ticks,
         Call.execute_step (sub32 frame.ticks ls.previousTimeMs),
         Call.fill_image_buffer, Call.SDL_CreateTextureFromSurface]
        ++ (if frame.textureCreated = true then
              [Call.SDL_RenderClear, Call.SDL_RenderCopy, Call.SDL_RenderPresent,
               Call.SDL_DestroyTexture, Call.SDL_FreeSurface, Call.SDL_DestroyRenderer,
               Call.SDL_DestroyWindow, Call.SDL_Quit]
            else []) ∧
    (main_loop ScreenWidth ScreenHeight read_screen_pixel set_key_pressed execute_step config
        (frame :: frames) ls).outcome =
      (if frame.textureCreated = true then Outcome.returned EXIT_SUCCESS
        else Outcome.aborted) ∧
    (main_loop ScreenWidth ScreenHeight read_screen_pixel set_key_pressed execute_step config
        (frame :: frames) ls).state =
      execute_step config
        (key_mapping.foldl
          (fun machine entry =>
            set_key_pressed machine entry.2 (decide (frame.sdlKeyStates entry.1 ≠ 0)))
          ls.state)
        (sub32 frame.ticks ls.previousTimeMs) ∧
    (main_loop ScreenWidth ScreenHeight read_screen_pixel set_key_pressed execute_step config
        (frame :: frames) ls).image =
      fill_image_buffer ScreenWidth ScreenHeight read_screen_pixel ls.image
        (execute_step config
          (key_mapping.foldl
            (fun machine entry =>
              set_key_pressed machine entry.2 (decide (frame.sdlKeyStates entry.1 ≠ 0)))
            ls.state)
          (sub32 frame.ticks ls.previousTimeMs))
        config.palette config.screenScale :=
  main_loop_quit_frame_explicit ScreenWidth ScreenHeight read_screen_pixel set_key_pressed
    execute_step config frame frames ls hrun hquit

end MainLoopTheorems

/-! ## The frame clock -/

theorem step_deltas_append (l1 l2 : List Call) :
    step_deltas (l1 ++ l2) = step_deltas l1 ++ step_deltas l2 := by
  simp [step_deltas, List.filterMap_append]

theorem tick_reads_append (l1 l2 : List Call) :
    tick_reads (l1 ++ l2) = tick_reads l1 ++ tick_reads l2 := by
  simp [tick_reads, List.filterMap_append]

theorem step_deltas_polls (queue : List SDL_Event) :
    step_deltas (queue.map (fun sdlEvent => Call.SDL_PollEvent (some sdlEvent))) = [] := by
  induction queue with
  | nil => rfl
  | cons sdlEvent rest ih =>
    simp only [step_deltas] at ih
    simp [step_deltas, List.filterMap_cons, ih]

theorem tick_reads_polls (queue : List SDL_Event) :
    tick_reads (queue.map (fun sdlEvent => Call.SDL_PollEvent (some sdlEvent))) = [] := by
  induction queue with
  | nil => rfl
  | cons sdlEvent rest ih =>
    simp only [tick_reads] at ih
    simp [tick_reads, List.filterMap_cons, ih]

theorem polled_events_key_calls (sdlKeyStates : Nat → Nat) :
    polled_events (key_calls sdlKeyStates) = [] := by
  simp [polled_events, key_calls, key_mapping]

theorem step_deltas_key_calls (sdlKeyStates : Nat → Nat) :
    step_deltas (key_calls sdlKeyStates) = [] := by
  simp [step_deltas, key_calls, key_mapping]

theorem tick_reads_key_calls (sdlKeyStates : Nat → Nat) :
    tick_reads (key_calls sdlKeyStates) = [] := by
  simp [tick_reads, key_calls, key_mapping]

theorem consecutive_deltas_getElem (l : List Nat) (k d : Nat)
    (h : (consecutive_deltas l)[k]? = some d) :
    ∃ previous current, l[k]? = some previous ∧ l[k + 1]? = some current ∧
      d = sub32 current previous := by
  induction l generalizing k with
  | nil => simp [consecutive_deltas] at h
  | cons a rest ih =>
    cases rest with
    | nil => simp [consecutive_deltas] at h
    | cons b rest2 =>
      rw [consecutive_deltas] at h
      cases k with
      | zero =>
        simp only [List.getElem?_cons_zero, Option.some.injEq] at h
        exact ⟨a, b, by simp, by simp, h.symm⟩
      | succ k =>
        rw [List.getElem?_cons_succ] at h
        obtain ⟨p, c, hp, hc, hd⟩ := ih k h
        exact ⟨p, c, by simpa using hp, by simpa using hc, hd⟩

theorem sub32_eq_emod (current previous : Nat) (hc : current < 2 ^ 32)
    (hp : previous < 2 ^ 32) :
    ((sub32 current previous : ℕ) : ℤ) = ((current : ℤ) - (previous : ℤ)) % 2 ^ 32 := by
  unfold sub32 U32
  rw [Nat.mod_eq_of_lt hc, Nat.mod_eq_of_lt hp]
  omega

theorem sub32_true_difference (earlier later : Nat) (h1 : earlier ≤ later)
    (h2 : later < earlier + 2 ^ 32) :
    sub32 (later % 2 ^ 32) (earlier % 2 ^ 32) = later - earlier := by
  unfold sub32 U32
  omega

section ClockTheorems

variable {CPUState : Type}
variable (ScreenWidth ScreenHeight : Nat)
variable (read_screen_pixel : CPUState → Nat → Nat → Nat)
variable (set_key_pressed : CPUState → Nat → Bool → CPUState)
variable (execute_step : EmuConfig → CPUState → Nat → CPUState)

theorem main_loop_clock (config : EmuConfig) (frames : List Frame) (ls : LoopState CPUState) :
    ∃ m, m ≤ frames.length ∧
      tick_reads (main_loop ScreenWidth ScreenHeight read_screen_pixel set_key_pressed
          execute_step config frames ls).calls
        = tick_reads ls.calls ++ (frames.map Frame.ticks).take m ∧
      step_deltas (main_loop ScreenWidth ScreenHeight read_screen_pixel set_key_pressed
          execute_step config frames ls).calls
        = step_deltas ls.calls
            ++ consecutive_deltas (ls.previousTimeMs :: (frames.map Frame.ticks).take m) ∧
      (main_loop ScreenWidth ScreenHeight read_screen_pixel set_key_pressed
          execute_step config frames ls).state
        = stepped_state set_key_pressed execute_step config ls.previousTimeMs
            (frames.take m) ls.state ∧
      (ls.shouldExit = false →
        (∀ frame ∈ frames, frame.textureCreated = true ∧
          frame.events.any is_quit_trigger = false) → m = frames.length) := by
  induction frames generalizing ls with
  | nil =>
    refine ⟨0, le_refl _, ?_, ?_, ?_, fun _ _ => rfl⟩ <;>
      (rw [main_loop]; split <;>
        simp [shut_down, tick_reads, step_deltas, consecutive_deltas, stepped_state,
          List.filterMap_append])
  | cons frame rest ih =>
    by_cases hexit : ls.shouldExit = true
    · refine ⟨0, Nat.zero_le _, ?_, ?_, ?_, fun h => by rw [hexit] at h; cases h⟩ <;>
        (rw [main_loop_of_shouldExit _ _ _ _ _ _ _ _ hexit];
          simp [shut_down, tick_reads, step_deltas, consecutive_deltas, stepped_state,
            List.filterMap_append])
    · have hrun : ls.shouldExit = false := by simpa using hexit
      have hticks : tick_reads (run_frame ScreenWidth ScreenHeight read_screen_pixel
          set_key_pressed execute_step config frame ls).calls
          = tick_reads ls.calls ++ [frame.ticks] := by
        rw [run_frame_calls, poll_events_eq]
        simp only [tick_reads_append, tick_reads_polls, tick_reads_key_calls]
        simp [tick_reads]
      have hsteps : step_deltas (run_frame ScreenWidth ScreenHeight read_screen_pixel
          set_key_pressed execute_step config frame ls).calls
          = step_deltas ls.calls ++ [sub32 frame.ticks ls.previousTimeMs] := by
        rw [run_frame_calls, poll_events_eq]
        simp only [step_deltas_append, step_deltas_polls, step_deltas_key_calls]
        simp [step_deltas]
      by_cases htex : frame.textureCreated = true
      · obtain ⟨m, hm, h1, h2, hst, h3⟩ := ih (present_frame frame
          (run_frame ScreenWidth ScreenHeight read_screen_pixel set_key_pressed execute_step
            config frame ls))
        have hticks2 : tick_reads (present_frame frame
            (run_frame ScreenWidth ScreenHeight read_screen_pixel set_key_pressed execute_step
              config frame ls)).calls = tick_reads ls.calls ++ [frame.ticks] := by
          simp only [present_frame, tick_reads_append, hticks]
          simp [tick_reads]
        have hsteps2 : step_deltas (present_frame frame
            (run_frame ScreenWidth ScreenHeight read_screen_pixel set_key_pressed execute_step
              config frame ls)).calls
            = step_deltas ls.calls ++ [sub32 frame.ticks ls.previousTimeMs] := by
          simp only [present_frame, step_deltas_append, hsteps]
          simp [step_deltas]
        rw [hticks2] at h1
        rw [hsteps2] at h2
        refine ⟨m + 1, by simp; omega, ?_, ?_, ?_, ?_⟩
        · rw [main_loop_cons_running _ _ _ _ _ _ _ _ _ hrun htex, h1]
          simp
        · rw [main_loop_cons_running _ _ _ _ _ _ _ _ _ hrun htex, h2]
          simp [consecutive_deltas, present_frame]
        · rw [main_loop_cons_running _ _ _ _ _ _ _ _ _ hrun htex, hst]
          rfl
        · intro _ hall
          have hf := hall frame (List.mem_cons_self _ _)
          have hnext : (present_frame frame (run_frame ScreenWidth ScreenHeight
              read_screen_pixel set_key_pressed execute_step config frame ls)).shouldExit
              = false := by
            simp only [present_frame, run_frame, poll_events_eq, hrun]
            simpa using hf.2
          have : m = rest.length := h3 hnext (fun f hfm => hall f (List.mem_cons_of_mem _ hfm))
          simp [this]
      · have htex2 : frame.textureCreated = false := by simpa using htex
        refine ⟨1, by simp, ?_, ?_, ?_, fun _ hall => ?_⟩
        · rw [main_loop_cons_aborted _ _ _ _ _ _ _ _ _ hrun htex2, hticks]
          simp
        · rw [main_loop_cons_aborted _ _ _ _ _ _ _ _ _ hrun htex2, hsteps]
          simp [consecutive_deltas]
        · rw [main_loop_cons_failed _ _ _ _ _ _ _ _ _ hrun htex2]
          rfl
        · have := (hall frame (List.mem_cons_self _ _)).1
          rw [htex2] at this; cases this

theorem update_keys_recordKey (updates : List (Nat × Nat)) (sdlKeyStates : Nat → Nat)
    (received : List Nat) : update_keys recordKey updates sdlKeyStates received = received := by
  induction updates with
  | nil => rfl
  | cons entry rest ih =>
    unfold update_keys at ih ⊢
    rw [List.foldl_cons]
    exact ih

theorem stepped_state_record (config : EmuConfig) (previous : Nat) (frames : List Frame)
    (received : List Nat) :
    stepped_state recordKey recordStep config previous frames received
      = received ++ consecutive_deltas (previous :: frames.map Frame.ticks) := by
  induction frames generalizing previous received with
  | nil => simp [stepped_state, consecutive_deltas]
  | cons frame rest ih =>
    rw [stepped_state, ih, update_keys_recordKey]
    simp [recordStep, consecutive_deltas]

end ClockTheorems

section LoopClaims

variable {CPUState : Type}
variable (ScreenWidth ScreenHeight : Nat)
variable (read_screen_pixel : CPUState → Nat → Nat → Nat)
variable (set_key_pressed : CPUState → Nat → Bool → CPUState)
variable (execute_step : EmuConfig → CPUState → Nat → CPUState)

theorem execute_main_loop_clock (platform : Platform) (state : CPUState) (config : EmuConfig) :
    (tick_reads (execute_main_loop ScreenWidth ScreenHeight read_screen_pixel
          set_key_pressed execute_step platform state config).calls = [] ∧
      step_deltas (execute_main_loop ScreenWidth ScreenHeight read_screen_pixel
          set_key_pressed execute_step platform state config).calls = [] ∧
      (execute_main_loop ScreenWidth ScreenHeight read_screen_pixel
          set_key_pressed execute_step platform state config).state = state ∧
      ¬ (platform.sdlInitialized = true ∧ platform.windowCreated = true ∧
        platform.rendererCreated = true ∧ platform.surfaceCreated = true)) ∨
    ∃ m, m ≤ platform.frames.length ∧
      tick_reads (execute_main_loop ScreenWidth ScreenHeight read_screen_pixel
          set_key_pressed execute_step platform state config).calls
        = platform.startTicks :: (platform.frames.map Frame.ticks).take m ∧
      step_deltas (execute_main_loop ScreenWidth ScreenHeight read_screen_pixel
          set_key_pressed execute_step platform state config).calls
        = consecutive_deltas (platform.startTicks :: (platform.frames.map Frame.ticks).take m) ∧
      (execute_main_loop ScreenWidth ScreenHeight read_screen_pixel
          set_key_pressed execute_step platform state config).state
        = stepped_state set_key_pressed execute_step config platform.startTicks
            (platform.frames.take m) state ∧
      ((∀ frame ∈ platform.frames, frame.textureCreated = true ∧
          frame.events.any is_quit_trigger = false) → m = platform.frames.length) := by
  unfold execute_main_loop
  by_cases h1 : platform.sdlInitialized = true
  · by_cases h2 : platform.windowCreated = true
    · by_cases h3 : platform.rendererCreated = true
      · by_cases h4 : platform.surfaceCreated = true
        · right
          simp only [h1, h2, h3, h4, not_true_eq_false, if_false]
          obtain ⟨m, hm, e1, e2, est, e3⟩ := main_loop_clock ScreenWidth ScreenHeight
            read_screen_pixel set_key_pressed execute_step config platform.frames
            { state := state, image := fun _ => 0, previousTimeMs := platform.startTicks,
              shouldExit := false,
              calls := [Call.SDL_Init] ++
                [Call.SDL_CreateWindow (mul32 ScreenWidth config.screenScale)
                  (mul32 ScreenHeight config.screenScale)] ++ [Call.SDL_CreateRenderer] ++
                [Call.SDL_CreateRGBSurfaceFrom (mul32 ScreenWidth config.screenScale)
                  (mul32 ScreenHeight config.screenScale) 32
                  (mul32 (mul32 ScreenWidth config.screenScale) pixelFormatBGRASizeInBytes)
                  (surface_masks platform.bigEndian)] ++
                [Call.SDL_GetTicks platform.startTicks] }
          refine ⟨m, hm, ?_, ?_, est, fun hall => e3 rfl hall⟩
          · rw [e1]; simp [tick_reads]
          · rw [e2]; simp [step_deltas]
        · left; simp [h1, h2, h3, h4, tick_reads, step_deltas]
      · left; simp [h1, h2, h3, tick_reads, step_deltas]
    · left; simp [h1, h2, tick_reads, step_deltas]
  · left; simp [h1, tick_reads, step_deltas]

theorem execute_main_loop_steps (platform : Platform) (state : CPUState) (config : EmuConfig) :
    ∃ m, m ≤ platform.frames.length ∧
      (execute_main_loop ScreenWidth ScreenHeight read_screen_pixel
          set_key_pressed execute_step platform state config).state
        = stepped_state set_key_pressed execute_step config platform.startTicks
            (platform.frames.take m) state ∧
      step_deltas (execute_main_loop ScreenWidth ScreenHeight read_screen_pixel
          set_key_pressed execute_step platform state config).calls
        = consecutive_deltas
            (platform.startTicks :: (platform.frames.take m).map Frame.ticks) ∧
      (platform.sdlInitialized = true → platform.windowCreated = true →
        platform.rendererCreated = true → platform.surfaceCreated = true →
        (∀ frame ∈ platform.frames, frame.textureCreated = true ∧
          frame.events.any is_quit_trigger = false) → m = platform.frames.length) := by
  rcases execute_main_loop_clock ScreenWidth ScreenHeight read_screen_pixel set_key_pressed
    execute_step platform state config with ⟨-, h0, hs, hno⟩ | ⟨m, hm, -, e2, est, e3⟩
  · refine ⟨0, Nat.zero_le _, ?_, ?_, fun h1 h2 h3 h4 _ => absurd ⟨h1, h2, h3, h4⟩ hno⟩
    · rw [hs]; simp [stepped_state]
    · rw [h0]; simp [consecutive_deltas]
  · refine ⟨m, hm, est, ?_, fun _ _ _ _ hall => e3 hall⟩
    rw [e2, List.map_take]

/-- C8: the frame clock. With `t_0 = startTicks` read once before the loop and `t_k` read in
iteration `k`, the elapsed value passed to the `k`-th call of `execute_step` is the unsigned
32-bit difference of `t_k` and `t_{k-1}` (the first one is measured against `t_0`); every
frame is stepped while no frame quits or fails; the machine state after the run is the one
obtained by applying `execute_step` with exactly these elapsed values, frame after frame,
and a machine that records the values it receives ends with the list of these
differences; the unsigned difference is `(t_k - t_{k-1}) mod 2^32`, and it is the true
difference whenever the counter advanced by less than `2^32` between the two reads, also
across a wraparound. -/
theorem execute_main_loop_frame_clock (platform : Platform) (state : CPUState)
    (config : EmuConfig) :
    (∀ k d, (step_deltas (execute_main_loop ScreenWidth ScreenHeight read_screen_pixel
          set_key_pressed execute_step platform state config).calls)[k]? = some d →
      ∃ previous current,
        (platform.startTicks :: platform.frames.map Frame.ticks)[k]? = some previous ∧
        (platform.startTicks :: platform.frames.map Frame.ticks)[k + 1]? = some current ∧
        d = sub32 current previous) ∧
    (platform.sdlInitialized = true → platform.windowCreated = true →
      platform.rendererCreated = true → platform.surfaceCreated = true →
      (∀ frame ∈ platform.frames, frame.textureCreated = true ∧
          frame.events.any is_quit_trigger = false) →
      step_deltas (execute_main_loop ScreenWidth ScreenHeight read_screen_pixel
          set_key_pressed execute_step platform state config).calls
        = consecutive_deltas (platform.startTicks :: platform.frames.map Frame.ticks) ∧
      (step_deltas (execute_main_loop ScreenWidth ScreenHeight read_screen_pixel
          set_key_pressed execute_step platform state config).calls).length
        = platform.frames.length) ∧
    (∃ m, m ≤ platform.frames.length ∧
      (execute_main_loop ScreenWidth ScreenHeight read_screen_pixel
          set_key_pressed execute_step platform state config).state
        = stepped_state set_key_pressed execute_step config platform.startTicks
            (platform.frames.take m) state ∧
      step_deltas (execute_main_loop ScreenWidth ScreenHeight read_screen_pixel
          set_key_pressed execute_step platform state config).calls
        = consecutive_deltas
            (platform.startTicks :: (platform.frames.take m).map Frame.ticks) ∧
      (platform.sdlInitialized = true → platform.windowCreated = true →
        platform.rendererCreated = true → platform.surfaceCreated = true →
        (∀ frame ∈ platform.frames, frame.textureCreated = true ∧
          frame.events.any is_quit_trigger = false) → m = platform.frames.length)) ∧
    ((execute_main_loop ScreenWidth ScreenHeight recordPixel recordKey recordStep
          platform [] config).state
      = step_deltas (execute_main_loop ScreenWidth ScreenHeight recordPixel recordKey recordStep
          platform [] config).calls) ∧
    (∀ current previous, current < 2 ^ 32 → previous < 2 ^ 32 →
      ((sub32 current previous : ℕ) : ℤ) = ((current : ℤ) - (previous : ℤ)) % 2 ^ 32) ∧
    (∀ earlier later, earlier ≤ later → later < earlier + 2 ^ 32 →
      sub32 (later % 2 ^ 32) (earlier % 2 ^ 32) = later - earlier) := by
  refine ⟨?_, ?_, execute_main_loop_steps ScreenWidth ScreenHeight read_screen_pixel
    set_key_pressed execute_step platform state config, ?_, sub32_eq_emod,
    sub32_true_difference⟩
  rotate_left 2
  · obtain ⟨m, -, hst, hsd, -⟩ := execute_main_loop_steps ScreenWidth ScreenHeight
      recordPixel recordKey recordStep platform [] config
    rw [hst, hsd, stepped_state_record]
    simp
  · intro k d hd
    rcases execute_main_loop_clock ScreenWidth ScreenHeight read_screen_pixel set_key_pressed
      execute_step platform state config with ⟨-, h0, -, -⟩ | ⟨m, hm, -, h2, -, -⟩
    · rw [h0] at hd; simp at hd
    · rw [h2] at hd
      obtain ⟨p, c, hp, hc, hpc⟩ := consecutive_deltas_getElem _ k d hd
      have hpre : ∀ (n x : Nat), (platform.startTicks ::
          (platform.frames.map Frame.ticks).take m)[n]? = some x →
          (platform.startTicks :: platform.frames.map Frame.ticks)[n]? = some x := by
        intro n x hx
        cases n with
        | zero => simpa using hx
        | succ n =>
          rw [List.getElem?_cons_succ] at hx ⊢
          rw [List.getElem?_take] at hx
          split at hx
          · exact hx
          · cases hx
      exact ⟨p, c, hpre _ _ hp, hpre _ _ hc, hpc⟩
  · intro h1 h2 h3 h4 hall
    rcases execute_main_loop_clock ScreenWidth ScreenHeight read_screen_pixel set_key_pressed
      execute_step platform state config with ⟨-, -, -, hno⟩ | ⟨m, hm, -, e2, -, e3⟩
    · exact absurd ⟨h1, h2, h3, h4⟩ hno
    · have hmlen := e3 hall
      have htake : (platform.frames.map Frame.ticks).take m = platform.frames.map Frame.ticks := by
        rw [hmlen]; exact List.take_of_length_le (by simp)
      rw [htake] at e2
      refine ⟨e2, ?_⟩
      rw [e2]
      have hlen : ∀ (l : List Nat) (a : Nat), (consecutive_deltas (a :: l)).length = l.length := by
        intro l
        induction l with
        | nil => intro a; simp [consecutive_deltas]
        | cons b rest ih => intro a; simp [consecutive_deltas, ih b]
      rw [hlen]; simp

/-- C7 (amended: the step of the quitting frame still runs): when an escape key-down event
is in the pending event queue of an iteration, every queued event is polled, then the keys
are sampled and `execute_step` is called exactly once more, in that same iteration, with the
elapsed time, followed by `fill_image_buffer` and texture creation; no further event is
polled and no further iteration starts. When the texture is created the frame is presented,
surface, renderer, window and the SDL subsystem are released in that order and the function
returns `EXIT_SUCCESS`; when it is not, the `Assert` of line 159 aborts. The machine state
and the image are those the calls produce. -/
theorem main_loop_escape_steps_once (config : EmuConfig) (frame : Frame)
    (frames : List Frame) (ls : LoopState CPUState) (hrun : ls.shouldExit = false)
    (hesc : ∃ sdlEvent ∈ frame.events,
      sdlEvent.type = SDL_KEYDOWN ∧ sdlEvent.sym = SDLK_ESCAPE) :
    (    (main_loop ScreenWidth ScreenHeight read_screen_pixel set_key_pressed execute_step config
        (frame :: frames) ls).calls =
      ls.calls ++ frame.events.map (fun sdlEvent => Call.SDL_PollEvent (some sdlEvent))
        ++ [Call.SDL_PollEvent none,
         Call.SDL_GetKeyboardState,
         Call.set_key_pressed 0x1 (decide (frame.sdlKeyStates SDL_SCANCODE_1 ≠ 0)),
         Call.set_key_pressed 0x2 (decide (frame.sdlKeyStates SDL_SCANCODE_2 ≠ 0)),
         Call.set_key_pressed 0x3 (decide (frame.sdlKeyStates SDL_SCANCODE_3 ≠ 0)),
         Call.set_key_pressed 0xC (decide (frame.sdlKeyStates SDL_SCANCODE_4 ≠ 0)),
         Call.set_key_pressed 0x4 (decide (frame.sdlKeyStates SDL_SCANCODE_Q ≠ 0)),
         Call.set_key_pressed 0x5 (decide (frame.sdlKeyStates SDL_SCANCODE_W ≠ 0)),
         Call.set_key_pressed 0x6 (decide (frame.sdlKeyStates SDL_SCANCODE_E ≠ 0)),
         Call.set_key_pressed 0xD (decide (frame.sdlKeyStates SDL_SCANCODE_R ≠ 0)),
         Call.set_key_pressed 0x7 (decide (frame.sdlKeyStates SDL_SCANCODE_A ≠ 0)),
         Call.set_key_pressed 0x8 (decide (frame.sdlKeyStates SDL_SCANCODE_S ≠ 0)),
         Call.set_key_pressed 0x9 (decide (frame.sdlKeyStates SDL_SCANCODE_D ≠ 0)),
         Call.set_key_pressed 0xE (decide (frame.sdlKeyStates SDL_SCANCODE_F ≠ 0)),
         Call.set_key_pressed 0xA (decide (frame.sdlKeyStates SDL_SCANCODE_Z ≠ 0)),
         Call.set_key_pressed 0x0 (decide (frame.sdlKeyStates SDL_SCANCODE_X ≠ 0)),
         Call.set_key_pressed 0xB (decide (frame.sdlKeyStates SDL_SCANCODE_C ≠ 0)),
         Call.set_key_pressed 0xF (decide (frame.sdlKeyStates SDL_SCANCODE_V ≠ 0)),
         Call.SDL_GetTicks frame.ticks,
         Call.execute_step (sub32 frame.ticks ls.previousTimeMs),
         Call.fill_image_buffer, Call.SDL_CreateTextureFromSurface]
        ++ (if frame.textureCreated = true then
              [Call.SDL_RenderClear, Call.SDL_RenderCopy, Call.SDL_RenderPresent,
               Call.SDL_DestroyTexture, Call.SDL_FreeSurface, Call.SDL_DestroyRenderer,
               Call.SDL_DestroyWindow, Call.SDL_Quit]
            else []) ∧
    (main_loop ScreenWidth ScreenHeight read_screen_pixel set_key_pressed execute_step config
        (frame :: frames) ls).outcome =
      (if frame.textureCreated = true then Outcome.returned EXIT_SUCCESS
        else Outcome.aborted) ∧
    (main_loop ScreenWidth ScreenHeight read_screen_pixel set_key_pressed execute_step config
        (frame :: frames) ls).state =
      execute_step config
        (key_mapping.foldl
          (fun machine entry =>
            set_key_pressed machine entry.2 (decide (frame.sdlKeyStates entry.1 ≠ 0)))
          ls.state)
        (sub32 frame.ticks ls.previousTimeMs) ∧
    (main_loop ScreenWidth ScreenHeight read_screen_pixel set_key_pressed execute_step config
        (frame :: frames) ls).image =
      fill_image_buffer ScreenWidth ScreenHeight read_screen_pixel ls.image
        (execute_step config
          (key_mapping.foldl
            (fun machine entry =>
              set_key_pressed machine entry.2 (decide (frame.sdlKeyStates entry.1 ≠ 0)))
            ls.state)
          (sub32 frame.ticks ls.previousTimeMs))
        config.palette config.screenScale) ∧
    step_deltas (main_loop ScreenWidth ScreenHeight read_screen_pixel set_key_pressed execute_step config
        (frame :: frames) ls).calls =
      step_deltas ls.calls ++ [sub32 frame.ticks ls.previousTimeMs] ∧
    polled_events (main_loop ScreenWidth ScreenHeight read_screen_pixel set_key_pressed execute_step config
        (frame :: frames) ls).calls =
      polled_events ls.calls ++ frame.events ∧
    tick_reads (main_loop ScreenWidth ScreenHeight read_screen_pixel set_key_pressed execute_step config
        (frame :: frames) ls).calls =
      tick_reads ls.calls ++ [frame.ticks] := by
  have hquit : (poll_events frame.events ls.shouldExit ls.calls).shouldExit = true := by
    rw [poll_events_eq, hrun]
    obtain ⟨sdlEvent, hmem, htype, hsym⟩ := hesc
    simp only [Bool.false_or, List.any_eq_true]
    exact ⟨sdlEvent, hmem, by simp [is_quit_trigger, htype, hsym]⟩
  have hexp := main_loop_quit_frame_explicit ScreenWidth ScreenHeight read_screen_pixel
    set_key_pressed execute_step config frame frames ls hrun hquit
  have h := main_loop_quit_frame ScreenWidth ScreenHeight read_screen_pixel
    set_key_pressed execute_step config frame frames ls hrun hquit
  refine ⟨hexp, ?_, ?_, ?_⟩
  · rw [h.1, poll_events_eq]
    simp only [step_deltas_append, step_deltas_polls, step_deltas_key_calls]
    split <;> simp [step_deltas]
  · rw [h.1, poll_events_eq]
    simp only [polled_events_append, polled_events_map, polled_events_key_calls]
    split <;> simp [polled_events]
  · rw [h.1, poll_events_eq]
    simp only [tick_reads_append, tick_reads_polls, tick_reads_key_calls]
    split <;> simp [tick_reads]

end LoopClaims

/-- Instance of C9 (amended): the frame `escapeFrame` (key-down of `a`, key-down of escape)
at the top of a fresh loop on a machine that logs the calls it receives, followed by an
unused idle frame. The machine has received the sixteen key updates and then one step of 16
milliseconds. -/
theorem main_loop_quit_frame_completes_witness :
    (freshLogState.shouldExit = false ∧
      (poll_events escapeFrame.events freshLogState.shouldExit
        freshLogState.calls).shouldExit = true) ∧
    (main_loop 64 32 logPixel logKey logStep plainConfig
        [escapeFrame, idleFrame 33] freshLogState).calls =
      [Call.SDL_PollEvent (some { type := SDL_KEYDOWN, sym := 97 }),
       Call.SDL_PollEvent (some escapeKeyDown), Call.SDL_PollEvent none,
       Call.SDL_GetKeyboardState,
       Call.set_key_pressed 0x1 false, Call.set_key_pressed 0x2 false,
       Call.set_key_pressed 0x3 false, Call.set_key_pressed 0xC false,
       Call.set_key_pressed 0x4 false, Call.set_key_pressed 0x5 false,
       Call.set_key_pressed 0x6 false, Call.set_key_pressed 0xD false,
       Call.set_key_pressed 0x7 false, Call.set_key_pressed 0x8 false,
       Call.set_key_pressed 0x9 false, Call.set_key_pressed 0xE false,
       Call.set_key_pressed 0xA false, Call.set_key_pressed 0x0 false,
       Call.set_key_pressed 0xB false, Call.set_key_pressed 0xF false,
       Call.SDL_GetTicks 16, Call.execute_step 16, Call.fill_image_buffer,
       Call.SDL_CreateTextureFromSurface, Call.SDL_RenderClear, Call.SDL_RenderCopy,
       Call.SDL_RenderPresent, Call.SDL_DestroyTexture, Call.SDL_FreeSurface,
       Call.SDL_DestroyRenderer, Call.SDL_DestroyWindow, Call.SDL_Quit] ∧
    (main_loop 64 32 logPixel logKey logStep plainConfig
        [escapeFrame, idleFrame 33] freshLogState).outcome = Outcome.returned EXIT_SUCCESS ∧
    (main_loop 64 32 logPixel logKey logStep plainConfig
        [escapeFrame, idleFrame 33] freshLogState).state =
      [Call.set_key_pressed 0x1 false, Call.set_key_pressed 0x2 false,
       Call.set_key_pressed 0x3 false, Call.set_key_pressed 0xC false,
       Call.set_key_pressed 0x4 false, Call.set_key_pressed 0x5 false,
       Call.set_key_pressed 0x6 false, Call.set_key_pressed 0xD false,
       Call.set_key_pressed 0x7 false, Call.set_key_pressed 0x8 false,
       Call.set_key_pressed 0x9 false, Call.set_key_pressed 0xE false,
       Call.set_key_pressed 0xA false, Call.set_key_pressed 0x0 false,
       Call.set_key_pressed 0xB false, Call.set_key_pressed 0xF false,
       Call.execute_step 16] :=
  ⟨by decide,
   (main_loop_quit_frame_completes 64 32 logPixel logKey logStep plainConfig escapeFrame
      [idleFrame 33] freshLogState (by decide) (by decide)).1.trans (by decide),
   (main_loop_quit_frame_completes 64 32 logPixel logKey logStep plainConfig escapeFrame
      [idleFrame 33] freshLogState (by decide) (by decide)).2.1.trans (by decide),
   (main_loop_quit_frame_completes 64 32 logPixel logKey logStep plainConfig escapeFrame
      [idleFrame 33] freshLogState (by decide) (by decide)).2.2.1.trans (by decide)⟩

/-- Counterexample to C9 as stated: the drain of the first iteration sets the quit flag (an
escape key-down is queued) and `SDL_CreateTextureFromSurface` returns no texture. The
`Assert` of line 159 aborts: the run ends with the texture request, nothing is cleared,
copied or presented, nothing is released, and the function does not return. -/
theorem quit_frame_aborts_without_texture :
    (poll_events escapeFrameWithoutTexture.events false []).shouldExit = true ∧
    (execute_main_loop 64 32 onlyOriginLit unitSetKey unitStep
        (workingPlatform 0 [escapeFrameWithoutTexture, idleFrame 33]) ()
        plainConfig).outcome = Outcome.aborted ∧
    (execute_main_loop 64 32 onlyOriginLit unitSetKey unitStep
        (workingPlatform 0 [escapeFrameWithoutTexture, idleFrame 33]) ()
        plainConfig).calls.getLast? = some Call.SDL_CreateTextureFromSurface ∧
    Call.SDL_RenderPresent ∉ (execute_main_loop 64 32 onlyOriginLit unitSetKey unitStep
        (workingPlatform 0 [escapeFrameWithoutTexture, idleFrame 33]) ()
        plainConfig).calls ∧
    Call.SDL_FreeSurface ∉ (execute_main_loop 64 32 onlyOriginLit unitSetKey unitStep
        (workingPlatform 0 [escapeFrameWithoutTexture, idleFrame 33]) ()
        plainConfig).calls ∧
    Call.SDL_Quit ∉ (execute_main_loop 64 32 onlyOriginLit unitSetKey unitStep
        (workingPlatform 0 [escapeFrameWithoutTexture, idleFrame 33]) ()
        plainConfig).calls := by
  decide

/-- Instance of C7 (amended) on `escapeFrame`, on a machine that logs the calls it
receives: after the two polled events, exactly one `execute_step`, then the release calls;
the machine has received the sixteen key updates and one step of 16 milliseconds. -/
theorem main_loop_escape_steps_once_witness :
    (freshLogState.shouldExit = false ∧
      ∃ sdlEvent ∈ escapeFrame.events,
        sdlEvent.type = SDL_KEYDOWN ∧ sdlEvent.sym = SDLK_ESCAPE) ∧
    (main_loop 64 32 logPixel logKey logStep plainConfig
        [escapeFrame, idleFrame 33] freshLogState).calls =
      [Call.SDL_PollEvent (some { type := SDL_KEYDOWN, sym := 97 }),
       Call.SDL_PollEvent (some escapeKeyDown), Call.SDL_PollEvent none,
       Call.SDL_GetKeyboardState,
       Call.set_key_pressed 0x1 false, Call.set_key_pressed 0x2 false,
       Call.set_key_pressed 0x3 false, Call.set_key_pressed 0xC false,
       Call.set_key_pressed 0x4 false, Call.set_key_pressed 0x5 false,
       Call.set_key_pressed 0x6 false, Call.set_key_pressed 0xD false,
       Call.set_key_pressed 0x7 false, Call.set_key_pressed 0x8 false,
       Call.set_key_pressed 0x9 false, Call.set_key_pressed 0xE false,
       Call.set_key_pressed 0xA false, Call.set_key_pressed 0x0 false,
       Call.set_key_pressed 0xB false, Call.set_key_pressed 0xF false,
       Call.SDL_GetTicks 16, Call.execute_step 16, Call.fill_image_buffer,
       Call.SDL_CreateTextureFromSurface, Call.SDL_RenderClear, Call.SDL_RenderCopy,
       Call.SDL_RenderPresent, Call.SDL_DestroyTexture, Call.SDL_FreeSurface,
       Call.SDL_DestroyRenderer, Call.SDL_DestroyWindow, Call.SDL_Quit] ∧
    (main_loop 64 32 logPixel logKey logStep plainConfig
        [escapeFrame, idleFrame 33] freshLogState).outcome = Outcome.returned EXIT_SUCCESS ∧
    (main_loop 64 32 logPixel logKey logStep plainConfig
        [escapeFrame, idleFrame 33] freshLogState).state.filter
          (fun received => decide (received = Call.execute_step 16)) =
      [Call.execute_step 16] ∧
    step_deltas (main_loop 64 32 logPixel logKey logStep plainConfig
        [escapeFrame, idleFrame 33] freshLogState).calls = [16] :=
  ⟨⟨by decide, ⟨escapeKeyDown, by decide, by decide, by decide⟩⟩,
   (main_loop_escape_steps_once 64 32 logPixel logKey logStep plainConfig escapeFrame
      [idleFrame 33] freshLogState (by decide)
      ⟨escapeKeyDown, by decide, by decide, by decide⟩).1.1.trans (by decide),
   (main_loop_escape_steps_once 64 32 logPixel logKey logStep plainConfig escapeFrame
      [idleFrame 33] freshLogState (by decide)
      ⟨escapeKeyDown, by decide, by decide, by decide⟩).1.2.1.trans (by decide),
   by rw [(main_loop_escape_steps_once 64 32 logPixel logKey logStep plainConfig escapeFrame
      [idleFrame 33] freshLogState (by decide)
      ⟨escapeKeyDown, by decide, by decide, by decide⟩).1.2.2.1]; decide,
   (main_loop_escape_steps_once 64 32 logPixel logKey logStep plainConfig escapeFrame
      [idleFrame 33] freshLogState (by decide)
      ⟨escapeKeyDown, by decide, by decide, by decide⟩).2.1.trans (by decide)⟩

/-- Counterexample to C7 as stated: with an escape key-down event in the pending queue of
the first iteration, `execute_step` is called (with 16 elapsed milliseconds) after that
event has been polled. -/
theorem execute_step_follows_escape :
    escapeKeyDown ∈ escapeFrame.events ∧
    ∃ before after,
      (execute_main_loop 64 32 onlyOriginLit unitSetKey unitStep
          (workingPlatform 0 [escapeFrame, idleFrame 33]) () plainConfig).calls
        = before ++ [Call.SDL_PollEvent (some escapeKeyDown)] ++ after ∧
      Call.execute_step 16 ∈ after :=
  ⟨by decide,
   (execute_main_loop 64 32 onlyOriginLit unitSetKey unitStep
      (workingPlatform 0 [escapeFrame, idleFrame 33]) () plainConfig).calls.take 6,
   (execute_main_loop 64 32 onlyOriginLit unitSetKey unitStep
      (workingPlatform 0 [escapeFrame, idleFrame 33]) () plainConfig).calls.drop 7,
   by decide, by decide⟩

/-- Instance of C8 with a counter that wraps between the first two reads, on the machine
that records the elapsed values it receives: the reads are `2^32 - 5, 10, 10, 30`, the
elapsed values passed are `15, 0, 20`, and the machine has received `15, 0, 20`. -/
theorem execute_main_loop_frame_clock_witness :
    step_deltas (execute_main_loop 64 32 recordPixel recordKey recordStep
      (workingPlatform 4294967291 [idleFrame 10, idleFrame 10, idleFrame 30]) []
      plainConfig).calls = [15, 0, 20] ∧
    (execute_main_loop 64 32 recordPixel recordKey recordStep
      (workingPlatform 4294967291 [idleFrame 10, idleFrame 10, idleFrame 30]) []
      plainConfig).state = [15, 0, 20] ∧
    (execute_main_loop 64 32 recordPixel recordKey recordStep
      (workingPlatform 4294967291 [idleFrame 10, idleFrame 10, idleFrame 30]) []
      plainConfig).state
      = step_deltas (execute_main_loop 64 32 recordPixel recordKey recordStep
          (workingPlatform 4294967291 [idleFrame 10, idleFrame 10, idleFrame 30]) []
          plainConfig).calls ∧
    ∀ k d, (step_deltas (execute_main_loop 64 32 recordPixel recordKey recordStep
        (workingPlatform 4294967291 [idleFrame 10, idleFrame 10, idleFrame 30]) []
        plainConfig).calls)[k]? = some d →
      ∃ previous current,
        ((workingPlatform 4294967291 [idleFrame 10, idleFrame 10, idleFrame 30]).startTicks ::
          (workingPlatform 4294967291 [idleFrame 10, idleFrame 10, idleFrame 30]).frames.map
            Frame.ticks)[k]? = some previous ∧
        ((workingPlatform 4294967291 [idleFrame 10, idleFrame 10, idleFrame 30]).startTicks ::
          (workingPlatform 4294967291 [idleFrame 10, idleFrame 10, idleFrame 30]).frames.map
            Frame.ticks)[k + 1]? = some current ∧
        d = sub32 current previous :=
  ⟨by decide, by decide,
   (execute_main_loop_frame_clock 64 32 recordPixel recordKey recordStep
    (workingPlatform 4294967291 [idleFrame 10, idleFrame 10, idleFrame 30]) []
    plainConfig).2.2.2.1,
   (execute_main_loop_frame_clock 64 32 recordPixel recordKey recordStep
    (workingPlatform 4294967291 [idleFrame 10, idleFrame 10, idleFrame 30]) []
    plainConfig).1⟩

/-! ## The key mapping -/

theorem update_keys_of_not_mem (updates : List (Nat × Nat)) (sdlKeyStates : Nat → Nat)
    (keypad : Keypad) (k : Nat) (hk : k ∉ updates.map Prod.snd) :
    update_keys keypad_set updates sdlKeyStates keypad k = keypad k := by
  induction updates generalizing keypad with
  | nil => rfl
  | cons entry rest ih =>
    simp only [List.map_cons, List.mem_cons, not_or] at hk
    unfold update_keys at ih ⊢
    rw [List.foldl_cons, ih _ hk.2]
    simp [apply_key_update, keypad_set, hk.1]

theorem update_keys_of_mem (updates : List (Nat × Nat)) (sdlKeyStates : Nat → Nat)
    (keypad : Keypad) (entry : Nat × Nat) (hnd : (updates.map Prod.snd).Nodup)
    (hmem : entry ∈ updates) :
    update_keys keypad_set updates sdlKeyStates keypad entry.2
      = decide (sdlKeyStates entry.1 ≠ 0) := by
  induction updates generalizing keypad with
  | nil => simp at hmem
  | cons first rest ih =>
    simp only [List.map_cons, List.nodup_cons] at hnd
    rcases List.mem_cons.mp hmem with rfl | hrest
    · have h := update_keys_of_not_mem rest sdlKeyStates
        (apply_key_update keypad_set sdlKeyStates keypad entry) entry.2 hnd.1
      unfold update_keys at h ⊢
      rw [List.foldl_cons, h]
      simp [apply_key_update, keypad_set]
    · have h := ih (apply_key_update keypad_set sdlKeyStates keypad first) hnd.2 hrest
      unfold update_keys at h ⊢
      rw [List.foldl_cons, h]

theorem key_mapping_scancodes_nodup : (key_mapping.map Prod.fst).Nodup := by decide

theorem key_mapping_keys_nodup : (key_mapping.map Prod.snd).Nodup := by decide

/-- C5: the key mapping is a bijection. The sixteen (scancode, key id) pairs of the
per-frame key update pair the sixteen distinct scancodes `1 2 3 4 Q W E R A S D F Z X C V`
with the sixteen key ids `0x0..0xF`; with `set_key_pressed` a point update of the keypad,
after the sixteen updates every logical key holds the pressed state of its mapped scancode,
every ordering of the updates gives the same keypad, and changing the state of one physical
key changes no logical key but the one it is mapped to. -/
theorem key_mapping_bijection :
    key_mapping.map Prod.fst =
      [SDL_SCANCODE_1, SDL_SCANCODE_2, SDL_SCANCODE_3, SDL_SCANCODE_4,
       SDL_SCANCODE_Q, SDL_SCANCODE_W, SDL_SCANCODE_E, SDL_SCANCODE_R,
       SDL_SCANCODE_A, SDL_SCANCODE_S, SDL_SCANCODE_D, SDL_SCANCODE_F,
       SDL_SCANCODE_Z, SDL_SCANCODE_X, SDL_SCANCODE_C, SDL_SCANCODE_V] ∧
    key_mapping.length = 16 ∧
    (key_mapping.map Prod.fst).Nodup ∧
    (key_mapping.map Prod.snd).Perm (List.range 16) ∧
    (∀ (keypad : Keypad) (sdlKeyStates : Nat → Nat) (entry : Nat × Nat),
      entry ∈ key_mapping →
      update_keys keypad_set key_mapping sdlKeyStates keypad entry.2
        = decide (sdlKeyStates entry.1 ≠ 0)) ∧
    (∀ (keypad : Keypad) (sdlKeyStates : Nat → Nat) (order : List (Nat × Nat)),
      order.Perm key_mapping →
      update_keys keypad_set order sdlKeyStates keypad
        = update_keys keypad_set key_mapping sdlKeyStates keypad) ∧
    (∀ (keypad : Keypad) (sdlKeyStates changed : Nat → Nat) (entry : Nat × Nat),
      entry ∈ key_mapping →
      (∀ scancode, scancode ≠ entry.1 → changed scancode = sdlKeyStates scancode) →
      ∀ k, k ≠ entry.2 →
        update_keys keypad_set key_mapping changed keypad k
          = update_keys keypad_set key_mapping sdlKeyStates keypad k) := by
  refine ⟨rfl, rfl, key_mapping_scancodes_nodup, by decide, ?_, ?_, ?_⟩
  · intro keypad sdlKeyStates entry hmem
    exact update_keys_of_mem key_mapping sdlKeyStates keypad entry key_mapping_keys_nodup hmem
  · intro keypad sdlKeyStates order hperm
    have hnd : (order.map Prod.snd).Nodup :=
      ((hperm.map Prod.snd).nodup_iff).mpr key_mapping_keys_nodup
    funext k
    by_cases hk : k ∈ order.map Prod.snd
    · obtain ⟨entry, hmem, rfl⟩ := List.mem_map.mp hk
      rw [update_keys_of_mem order sdlKeyStates keypad entry hnd hmem,
        update_keys_of_mem key_mapping sdlKeyStates keypad entry key_mapping_keys_nodup
          (hperm.mem_iff.mp hmem)]
    · have hk2 : k ∉ key_mapping.map Prod.snd := fun h =>
        hk (((hperm.map Prod.snd).mem_iff).mpr h)
      rw [update_keys_of_not_mem order sdlKeyStates keypad k hk,
        update_keys_of_not_mem key_mapping sdlKeyStates keypad k hk2]
  · intro keypad sdlKeyStates changed entry hmem hsame k hk
    by_cases hkm : k ∈ key_mapping.map Prod.snd
    · obtain ⟨other, hother, rfl⟩ := List.mem_map.mp hkm
      have hne : other.1 ≠ entry.1 := by
        intro heq
        exact hk (congrArg Prod.snd
          (List.inj_on_of_nodup_map key_mapping_scancodes_nodup hother hmem heq))
      rw [update_keys_of_mem key_mapping changed keypad other key_mapping_keys_nodup hother,
        update_keys_of_mem key_mapping sdlKeyStates keypad other key_mapping_keys_nodup hother,
        hsame other.1 hne]
    · rw [update_keys_of_not_mem key_mapping changed keypad k hkm,
        update_keys_of_not_mem key_mapping sdlKeyStates keypad k hkm]

end Chip8
